import Mathlib

/-!
# Verification of the 2c1f transfer core against its specification

Shallow embedding of the transfer core of the 2c1f peer-to-peer file
transfer utility: the framed message codec, the manifest builder's
cache behaviour, the receiver's path validation and resume
verification, the sender's streaming loop, the handshake, and the
rendezvous derivation.

Modelling conventions:
* Go strings and byte slices are `List Nat`, each element one byte.
* Go `int64` is `Int` (the claims under study never exercise 64-bit
  wrap-around); `uint32` truncation is written explicitly as `% 2^32`.
* The filesystem is an association list from paths to file contents;
  paths follow the Unix flavour of `path/filepath` (separator `/`,
  `filepath.FromSlash` is the identity).
* The external BLAKE3 library (lukechampine.com/blake3) is a parameter
  `hashHex` of the definitions that call it: the control flow under
  study treats the digest function as an oracle producing the
  hex-encoded digest of a byte sequence.
* `encoding/json` is modelled by an executable JSON parser written to
  agree with the Go decoder on the inputs this development reasons
  about: object and `null` handling, the number grammar including the
  leading-zero rule, rejection of trailing input, base64 decoding of
  `[]byte` fields, and zero values for absent fields.
-/

namespace Transfer

/-- Byte list of an ASCII string literal (every literal in this file is
ASCII, so `Char.toNat` is the byte value). -/
def strBytes (s : String) : List Nat := s.data.map (fun c => c.toNat)

/-- `MaxMessageSize = 100 << 20` from the protocol constants. -/
def MaxMessageSize : Nat := 100 <<< 20

/-- `LegacyBlockSize = 1024 * 1024`. -/
def LegacyBlockSize : Int := 1024 * 1024

/-- `BlockSize = 16 * 1024 * 1024`. -/
def BlockSize : Int := 16 * 1024 * 1024

/-! ## Big-endian length prefix (WriteMessage / ReadMessage framing) -/

/-- The four length-prefix bytes Go writes:
`byte(l>>24), byte(l>>16), byte(l>>8), byte(l)`. -/
def be32enc (n : Nat) : List Nat :=
  [n >>> 24 % 256, n >>> 16 % 256, n >>> 8 % 256, n % 256]

/-- The length Go reconstructs:
`uint32(b0)<<24 | uint32(b1)<<16 | uint32(b2)<<8 | uint32(b3)`
(the `% 256` is the `byte` type of the buffer elements). -/
def be32dec (b0 b1 b2 b3 : Nat) : Nat :=
  ((b0 % 256) <<< 24) ||| ((b1 % 256) <<< 16) ||| ((b2 % 256) <<< 8) ||| (b3 % 256)

theorem shiftLeft_lor_eq (a b k : Nat) (hb : b < 2 ^ k) :
    (a <<< k) ||| b = 2 ^ k * a + b := by
  apply Nat.eq_of_testBit_eq
  intro i
  rw [Nat.testBit_lor, Nat.testBit_shiftLeft, Nat.testBit_mul_pow_two_add a hb]
  by_cases h : i < k
  · simp [h, Nat.not_le.2 h]
  · have hk : k ≤ i := Nat.le_of_not_lt h
    have hb2 : b < 2 ^ i := lt_of_lt_of_le hb (Nat.pow_le_pow_right (by norm_num) hk)
    simp [h, hk, Nat.testBit_eq_false_of_lt hb2]

/-- `be32dec` recomposes the byte values arithmetically. -/
theorem be32dec_eq (b0 b1 b2 b3 : Nat) :
    be32dec b0 b1 b2 b3 =
      2 ^ 24 * (b0 % 256) + 2 ^ 16 * (b1 % 256) + 2 ^ 8 * (b2 % 256) + b3 % 256 := by
  have h8 : b3 % 256 < 2 ^ 8 := Nat.mod_lt _ (by norm_num)
  have h16 : (b2 % 256) <<< 8 ||| b3 % 256 < 2 ^ 16 := by
    rw [shiftLeft_lor_eq _ _ _ h8]
    have : b2 % 256 < 256 := Nat.mod_lt _ (by norm_num)
    omega
  have h24 : (b1 % 256) <<< 16 ||| ((b2 % 256) <<< 8 ||| b3 % 256) < 2 ^ 24 := by
    rw [shiftLeft_lor_eq _ _ _ h16]
    have : b1 % 256 < 256 := Nat.mod_lt _ (by norm_num)
    omega
  calc be32dec b0 b1 b2 b3
      = (b0 % 256) <<< 24 |||
          ((b1 % 256) <<< 16 ||| ((b2 % 256) <<< 8 ||| b3 % 256)) := by
        simp only [be32dec, Nat.lor_assoc]
    _ = 2 ^ 24 * (b0 % 256) + ((b1 % 256) <<< 16 ||| ((b2 % 256) <<< 8 ||| b3 % 256)) :=
        shiftLeft_lor_eq _ _ _ h24
    _ = 2 ^ 24 * (b0 % 256) + (2 ^ 16 * (b1 % 256) + ((b2 % 256) <<< 8 ||| b3 % 256)) := by
        rw [shiftLeft_lor_eq _ _ _ h16]
    _ = _ := by rw [shiftLeft_lor_eq _ _ _ h8]; ring

/-- Decoding the four prefix bytes of `n < 2^32` recovers `n`. -/
theorem be32_roundtrip (n : Nat) (h : n < 2 ^ 32) :
    be32dec (n >>> 24 % 256) (n >>> 16 % 256) (n >>> 8 % 256) (n % 256) = n := by
  rw [be32dec_eq]
  simp only [Nat.shiftRight_eq_div_pow]
  have e24 : (2 : Nat) ^ 24 = 16777216 := by norm_num
  have e16 : (2 : Nat) ^ 16 = 65536 := by norm_num
  have e8 : (2 : Nat) ^ 8 = 256 := by norm_num
  have e32 : (2 : Nat) ^ 32 = 4294967296 := by norm_num
  rw [e24, e16, e8] at *
  rw [e32] at h
  omega

/-! ## base64 (Go `encoding/base64` StdEncoding, used for `[]byte` in JSON) -/

/-- The standard base64 alphabet as ASCII codes. -/
def b64digit (n : Nat) : Nat :=
  if n < 26 then 65 + n
  else if n < 52 then 97 + (n - 26)
  else if n < 62 then 48 + (n - 52)
  else if n = 62 then 43
  else 47

/-- Inverse of the alphabet; `none` on characters outside it
(including the padding byte 61, `'='`). -/
def b64val (c : Nat) : Option Nat :=
  if 65 ≤ c ∧ c ≤ 90 then some (c - 65)
  else if 97 ≤ c ∧ c ≤ 122 then some (c - 97 + 26)
  else if 48 ≤ c ∧ c ≤ 57 then some (c - 48 + 52)
  else if c = 43 then some 62
  else if c = 47 then some 63
  else none

/-- Standard base64 encoding with padding, three input bytes per four
output characters. -/
def base64Encode : List Nat → List Nat
  | [] => []
  | [b0] => [b64digit (b0 / 4), b64digit (b0 % 4 * 16), 61, 61]
  | [b0, b1] => [b64digit (b0 / 4), b64digit (b0 % 4 * 16 + b1 / 16), b64digit (b1 % 16 * 4), 61]
  | b0 :: b1 :: b2 :: rest =>
      b64digit (b0 / 4) :: b64digit (b0 % 4 * 16 + b1 / 16) ::
      b64digit (b1 % 16 * 4 + b2 / 64) :: b64digit (b2 % 64) :: base64Encode rest

/-- Standard base64 decoding; `none` on input that is not a padded
four-character-group encoding (Go returns a `CorruptInputError`). -/
def base64Decode : List Nat → Option (List Nat)
  | [] => some []
  | c0 :: c1 :: c2 :: c3 :: rest =>
      if c2 = 61 ∧ c3 = 61 ∧ rest = [] then do
        let v0 ← b64val c0
        let v1 ← b64val c1
        pure [v0 * 4 + v1 / 16]
      else if c3 = 61 ∧ rest = [] then do
        let v0 ← b64val c0
        let v1 ← b64val c1
        let v2 ← b64val c2
        pure [v0 * 4 + v1 / 16, v1 % 16 * 16 + v2 / 4]
      else do
        let v0 ← b64val c0
        let v1 ← b64val c1
        let v2 ← b64val c2
        let v3 ← b64val c3
        let tail ← base64Decode rest
        pure ((v0 * 4 + v1 / 16) :: (v1 % 16 * 16 + v2 / 4) :: (v2 % 4 * 64 + v3) :: tail)
  | _ => none

theorem b64val_b64digit : ∀ n < 64, b64val (b64digit n) = some n := by decide

/-- Every base64 output character is a printable ASCII character that is
neither a quote, a backslash, nor the padding byte (so it needs no JSON
string escaping). -/
theorem b64digit_plain (n : Nat) :
    32 ≤ b64digit n ∧ b64digit n < 127 ∧ b64digit n ≠ 34 ∧ b64digit n ≠ 92 ∧
      b64digit n ≠ 61 := by
  unfold b64digit
  split_ifs <;> omega

theorem base64Encode_length (l : List Nat) :
    (base64Encode l).length = 4 * ((l.length + 2) / 3) := by
  induction l using base64Encode.induct with
  | case1 => simp [base64Encode]
  | case2 b0 => simp [base64Encode]
  | case3 b0 b1 => simp [base64Encode]
  | case4 b0 b1 b2 rest ih =>
      simp only [base64Encode, List.length_cons, ih]
      omega

theorem base64_roundtrip (l : List Nat) (h : ∀ b ∈ l, b < 256) :
    base64Decode (base64Encode l) = some l := by
  induction l using base64Encode.induct with
  | case1 => simp [base64Encode, base64Decode]
  | case2 b0 =>
      have hb0 : b0 < 256 := h b0 (by simp)
      have h0 : b0 / 4 < 64 := by omega
      have h1 : b0 % 4 * 16 < 64 := by omega
      simp [base64Encode, base64Decode, b64val_b64digit _ h0, b64val_b64digit _ h1]
      omega
  | case3 b0 b1 =>
      have hb0 : b0 < 256 := h b0 (by simp)
      have hb1 : b1 < 256 := h b1 (by simp)
      have h0 : b0 / 4 < 64 := by omega
      have h1 : b0 % 4 * 16 + b1 / 16 < 64 := by omega
      have h2 : b1 % 16 * 4 < 64 := by omega
      have hp2 := (b64digit_plain (b1 % 16 * 4)).2.2.2.2
      simp [base64Encode, base64Decode, hp2, b64val_b64digit _ h0, b64val_b64digit _ h1,
        b64val_b64digit _ h2]
      omega
  | case4 b0 b1 b2 rest ih =>
      have hb0 : b0 < 256 := h b0 (by simp)
      have hb1 : b1 < 256 := h b1 (by simp)
      have hb2 : b2 < 256 := h b2 (by simp)
      have hrest : ∀ b ∈ rest, b < 256 := fun b hb => h b (by simp [hb])
      have h0 : b0 / 4 < 64 := by omega
      have h1 : b0 % 4 * 16 + b1 / 16 < 64 := by omega
      have h2 : b1 % 16 * 4 + b2 / 64 < 64 := by omega
      have h3 : b2 % 64 < 64 := by omega
      have hp2 := (b64digit_plain (b1 % 16 * 4 + b2 / 64)).2.2.2.2
      have hp3 := (b64digit_plain (b2 % 64)).2.2.2.2
      simp [base64Encode, base64Decode, hp2, hp3, b64val_b64digit _ h0, b64val_b64digit _ h1,
        b64val_b64digit _ h2, b64val_b64digit _ h3, ih hrest]
      omega

/-! ## JSON (model of `encoding/json` on the shapes this code exchanges) -/

/-- A parsed JSON value. Numbers keep their integer part together with a
flag telling whether the literal was a plain integer (Go rejects
fractional or exponent literals when decoding into integer types). -/
inductive JValue where
  | null
  | bool (b : Bool)
  | num (i : Int) (isInt : Bool)
  | str (s : List Nat)
  | arr (xs : List JValue)
  | obj (fields : List (List Nat × JValue))

def isWsB (c : Nat) : Bool := c = 32 || c = 9 || c = 10 || c = 13

def isDigitB (c : Nat) : Bool := 48 ≤ c && c ≤ 57

def skipWs : List Nat → List Nat
  | [] => []
  | c :: rest => if isWsB c then skipWs rest else c :: rest

/-- Consume a run of decimal digits, folding them onto `acc`. -/
def parseDigits : List Nat → Nat → Nat × List Nat
  | [], acc => (acc, [])
  | c :: rest, acc =>
      if isDigitB c then parseDigits rest (10 * acc + (c - 48)) else (acc, c :: rest)

def headIsDigitB : List Nat → Bool
  | [] => false
  | c :: _ => isDigitB c

/-- Optional fraction part `.digits`; returns whether one was present. -/
def parseFracPart : List Nat → Option (Bool × List Nat)
  | [] => some (false, [])
  | c :: r =>
      if c = 46 then
        match r with
        | d :: r2 => if isDigitB d then some (true, (parseDigits r2 (d - 48)).2) else none
        | [] => none
      else some (false, c :: r)

/-- Optional exponent part `(e|E)(+|-)?digits`; returns whether present. -/
def parseExpPart : List Nat → Option (Bool × List Nat)
  | c :: r =>
      if c = 101 ∨ c = 69 then
        let r1 := match r with
          | 43 :: r2 => r2
          | 45 :: r2 => r2
          | _ => r
        match r1 with
        | d :: r2 => if isDigitB d then some (true, (parseDigits r2 (d - 48)).2) else none
        | [] => none
      else some (false, c :: r)
  | [] => some (false, [])

/-- The unsigned part of a JSON number: integer part without a leading
zero, optional fraction and exponent. Returns the integer-part value and
whether the literal was a plain integer. -/
def parseNumberCore : List Nat → Option ((Nat × Bool) × List Nat)
  | [] => none
  | c :: r =>
      if ¬ isDigitB c then none
      else if c = 48 && headIsDigitB r then none
      else
        let intPart := parseDigits r (c - 48)
        match parseFracPart intPart.2 with
        | none => none
        | some (f1, s3) =>
            match parseExpPart s3 with
            | none => none
            | some (f2, s4) => some ((intPart.1, ¬ (f1 ∨ f2)), s4)

/-- A JSON number: optional minus sign then `parseNumberCore`. -/
def parseNumber : List Nat → Option ((Int × Bool) × List Nat)
  | [] => none
  | c :: r =>
      if c = 45 then
        (parseNumberCore r).map (fun x => ((-(x.1.1 : Int), x.1.2), x.2))
      else
        (parseNumberCore (c :: r)).map (fun x => (((x.1.1 : Int), x.1.2), x.2))

def hexVal (c : Nat) : Option Nat :=
  if 48 ≤ c ∧ c ≤ 57 then some (c - 48)
  else if 97 ≤ c ∧ c ≤ 102 then some (c - 97 + 10)
  else if 65 ≤ c ∧ c ≤ 70 then some (c - 65 + 10)
  else none

/-- UTF-8 bytes of a code point below 2^16 (the range `\uXXXX` yields;
lone surrogates are encoded as-is rather than replaced, a divergence
from Go that no input in this development exercises). -/
def utf8EncodeCp (n : Nat) : List Nat :=
  if n < 128 then [n]
  else if n < 2048 then [192 + n / 64, 128 + n % 64]
  else [224 + n / 4096, 128 + n / 64 % 64, 128 + n % 64]

/-- Decoded byte of a single-character escape. -/
def escByte : Nat → Option Nat
  | 34 => some 34
  | 92 => some 92
  | 47 => some 47
  | 98 => some 8
  | 102 => some 12
  | 110 => some 10
  | 114 => some 13
  | 116 => some 9
  | _ => none

/-- Body of a JSON string after the opening quote: plain characters,
escapes, and the closing quote. Returns the decoded bytes and the rest
of the input. -/
def parseStringBody : List Nat → Option (List Nat × List Nat)
  | [] => none
  | c :: rest =>
      if c = 34 then some ([], rest)
      else if c = 92 then
        match rest with
        | [] => none
        | e :: rest2 =>
            if e = 117 then
              match rest2 with
              | h1 :: h2 :: h3 :: h4 :: rest3 => do
                  let v1 ← hexVal h1
                  let v2 ← hexVal h2
                  let v3 ← hexVal h3
                  let v4 ← hexVal h4
                  let sr ← parseStringBody rest3
                  pure (utf8EncodeCp (((v1 * 16 + v2) * 16 + v3) * 16 + v4) ++ sr.1, sr.2)
              | _ => none
            else do
              let b ← escByte e
              let sr ← parseStringBody rest2
              pure (b :: sr.1, sr.2)
      else if c < 32 then none
      else do
        let sr ← parseStringBody rest
        pure (c :: sr.1, sr.2)

mutual

/-- Parse one JSON value; the fuel bounds recursion depth and is ample
for any input when seeded with the input length (see `parseJson`). -/
def parseValue : Nat → List Nat → Option (JValue × List Nat)
  | 0, _ => none
  | fuel+1, s =>
      match skipWs s with
      | [] => none
      | c :: r =>
          if isDigitB c ∨ c = 45 then
            (parseNumber (c :: r)).map (fun x => (JValue.num x.1.1 x.1.2, x.2))
          else if c = 34 then
            (parseStringBody r).map (fun x => (JValue.str x.1, x.2))
          else if c = 123 then
            match skipWs r with
            | 125 :: r2 => some (JValue.obj [], r2)
            | r2 => (parseMembers fuel r2).map (fun x => (JValue.obj x.1, x.2))
          else if c = 91 then
            match skipWs r with
            | 93 :: r2 => some (JValue.arr [], r2)
            | r2 => (parseElems fuel r2).map (fun x => (JValue.arr x.1, x.2))
          else if c = 110 then
            match r with
            | 117 :: 108 :: 108 :: r2 => some (JValue.null, r2)
            | _ => none
          else if c = 116 then
            match r with
            | 114 :: 117 :: 101 :: r2 => some (JValue.bool true, r2)
            | _ => none
          else if c = 102 then
            match r with
            | 97 :: 108 :: 115 :: 101 :: r2 => some (JValue.bool false, r2)
            | _ => none
          else none

/-- Members of a non-empty JSON object, positioned at a key quote. -/
def parseMembers : Nat → List Nat → Option (List (List Nat × JValue) × List Nat)
  | 0, _ => none
  | fuel+1, s =>
      match s with
      | 34 :: r => do
          let kr ← parseStringBody r
          match skipWs kr.2 with
          | 58 :: r2 => do
              let vr ← parseValue fuel r2
              match skipWs vr.2 with
              | 44 :: r4 => do
                  let fr ← parseMembers fuel (skipWs r4)
                  pure ((kr.1, vr.1) :: fr.1, fr.2)
              | 125 :: r4 => pure ([(kr.1, vr.1)], r4)
              | _ => none
          | _ => none
      | _ => none

/-- Elements of a non-empty JSON array. -/
def parseElems : Nat → List Nat → Option (List JValue × List Nat)
  | 0, _ => none
  | fuel+1, s => do
      let vr ← parseValue fuel s
      match skipWs vr.2 with
      | 44 :: r2 => do
          let er ← parseElems fuel r2
          pure (vr.1 :: er.1, er.2)
      | 93 :: r2 => pure ([vr.1], r2)
      | _ => none

end

/-- `json.Unmarshal` top level: one value, optional surrounding
whitespace, nothing after it. -/
def parseJson (s : List Nat) : Option JValue :=
  match parseValue (2 * s.length + 2) s with
  | some (v, rest) => if skipWs rest = [] then some v else none
  | none => none

/-- Field lookup with Go's last-duplicate-wins decoding order. -/
def jlookup (fields : List (List Nat × JValue)) (key : List Nat) : Option JValue :=
  fields.foldl (fun acc kv => if kv.1 = key then some kv.2 else acc) none

/-! ## Protocol messages and framing -/

/-- `Message` with `Type MessageType` (a `uint8`) and `Payload []byte`;
the JSON tags are `type` and `payload,omitempty`. -/
structure Message where
  type : Nat
  payload : List Nat
deriving DecidableEq, Repr

def MsgManifest : Nat := 0
def MsgResume : Nat := 1
def MsgFileStart : Nat := 2
def MsgFileEnd : Nat := 3
def MsgComplete : Nat := 4
def MsgError : Nat := 5
def MsgHandshake : Nat := 6
def MsgHandshakeAck : Nat := 7

/-- A well-formed Go `Message` value: the type fits in a `uint8` and the
payload elements are bytes. -/
def Message.wf (m : Message) : Prop :=
  m.type < 256 ∧ ∀ b ∈ m.payload, b < 256

instance (m : Message) : Decidable m.wf := by
  unfold Message.wf
  infer_instance

/-- Decimal digits with explicit fuel, so that the kernel can evaluate
the definition (the fuel is ample whenever it is at least the number). -/
def natDecimalF : Nat → Nat → List Nat
  | 0, n => [48 + n % 10]
  | f + 1, n => if n < 10 then [48 + n] else natDecimalF f (n / 10) ++ [48 + n % 10]

/-- Decimal digits of a natural number, most significant first. -/
def natDecimal (n : Nat) : List Nat := natDecimalF n n

theorem natDecimalF_congr : ∀ f g n : Nat, n ≤ f → n ≤ g → natDecimalF f n = natDecimalF g n := by
  intro f
  induction f using Nat.strong_induction_on with
  | _ f ihf =>
    intro g n hf hg
    match f, g with
    | 0, 0 => rfl
    | 0, g + 1 =>
        have : n = 0 := by omega
        subst this
        simp [natDecimalF]
    | f + 1, 0 =>
        have : n = 0 := by omega
        subst this
        simp [natDecimalF]
    | f + 1, g + 1 =>
        by_cases h : n < 10
        · simp [natDecimalF, h]
        · simp only [natDecimalF, h, if_false]
          rw [ihf f (by omega) g (n / 10) (by omega) (by omega)]

/-- The recurrence the original definition would satisfy. -/
theorem natDecimal_eq (n : Nat) :
    natDecimal n = if n < 10 then [48 + n] else natDecimal (n / 10) ++ [48 + n % 10] := by
  by_cases h : n < 10
  · rw [if_pos h]
    unfold natDecimal
    match n, h with
    | 0, _ => rfl
    | n + 1, h => simp [natDecimalF, h]
  · rw [if_neg h]
    unfold natDecimal
    have hn : n = (n - 1) + 1 := by omega
    rw [hn, natDecimalF]
    rw [if_neg (by omega)]
    rw [natDecimalF_congr (n - 1) (((n - 1 + 1)) / 10) ((n - 1 + 1) / 10) (by omega) (by omega)]

/-- `json.Marshal` of a `Message`: struct fields in declaration order,
`[]byte` as a base64 string, empty payload omitted by `omitempty`. -/
def marshalMessage (m : Message) : List Nat :=
  strBytes "\x7b\"type\":" ++ natDecimal m.type ++
    (if m.payload = [] then strBytes "\x7d"
     else strBytes ",\"payload\":\"" ++ base64Encode m.payload ++ strBytes "\"\x7d")

/-- `json.Unmarshal` into a `Message`: an object (absent fields keep
their zero values, `null` fields are no-ops, the type must be an
integer fitting `uint8`, the payload string must decode as base64) or
a top-level `null` (a no-op leaving the zero `Message`). -/
def unmarshalMessage (data : List Nat) : Option Message :=
  match parseJson data with
  | some (JValue.obj fields) => do
      let t ← match jlookup fields (strBytes "type") with
        | none => some 0
        | some JValue.null => some 0
        | some (JValue.num i isInt) =>
            if isInt ∧ 0 ≤ i ∧ i < 256 then some i.toNat else none
        | some _ => none
      let p ← match jlookup fields (strBytes "payload") with
        | none => some []
        | some JValue.null => some []
        | some (JValue.str s) => base64Decode s
        | some _ => none
      pure ⟨t, p⟩
  | some JValue.null => some ⟨0, []⟩
  | _ => none

/-- `WriteMessage`: 4-byte big-endian length prefix (through `uint32`)
followed by the JSON encoding. -/
def writeMessage (m : Message) : List Nat :=
  be32enc ((marshalMessage m).length % 2 ^ 32) ++ marshalMessage m

/-- `ReadMessage`: read the 4-byte prefix, reject lengths above
`MaxMessageSize` before touching the payload, then read and decode
exactly that many payload bytes. -/
def readMessage (s : List Nat) : Except (List Nat) (Message × List Nat) :=
  match s with
  | b0 :: b1 :: b2 :: b3 :: rest =>
      if MaxMessageSize < be32dec b0 b1 b2 b3 then .error (strBytes "message too large")
      else if rest.length < be32dec b0 b1 b2 b3 then .error (strBytes "EOF")
      else
        match unmarshalMessage (rest.take (be32dec b0 b1 b2 b3)) with
        | some m => .ok (m, rest.drop (be32dec b0 b1 b2 b3))
        | none => .error (strBytes "invalid json")
  | _ => .error (strBytes "EOF")


/-! ## Parsing lemmas for the canonical message encoding -/

theorem strBytes_typeKey :
    strBytes "\x7b\"type\":" = [123, 34, 116, 121, 112, 101, 34, 58] := by decide

theorem strBytes_payloadKey :
    strBytes ",\"payload\":\"" = [44, 34, 112, 97, 121, 108, 111, 97, 100, 34, 58, 34] := by
  decide

theorem strBytes_closeStr : strBytes "\"\x7d" = [34, 125] := by decide

theorem strBytes_closeObj : strBytes "\x7d" = [125] := by decide

theorem skipWs_cons (c : Nat) (r : List Nat) (h : isWsB c = false) :
    skipWs (c :: r) = c :: r := by simp [skipWs, h]

/-- The first character of the remaining input is not a decimal digit. -/
def headNotDigit : List Nat → Prop
  | [] => True
  | c :: _ => isDigitB c = false

/-- The first character of the remaining input cannot continue a number
literal (no digit, no decimal point, no exponent letter). -/
def headNotNumCont : List Nat → Prop
  | [] => True
  | c :: _ => isDigitB c = false ∧ c ≠ 46 ∧ c ≠ 101 ∧ c ≠ 69

def digitsVal (acc : Nat) (s : List Nat) : Nat :=
  s.foldl (fun a c => 10 * a + (c - 48)) acc

theorem parseDigits_append (s : List Nat) (rest : List Nat) (acc : Nat)
    (hs : ∀ c ∈ s, isDigitB c = true) (hr : headNotDigit rest) :
    parseDigits (s ++ rest) acc = (digitsVal acc s, rest) := by
  induction s generalizing acc with
  | nil =>
      cases rest with
      | nil => simp [parseDigits, digitsVal]
      | cons c r =>
          simp only [headNotDigit] at hr
          simp [parseDigits, digitsVal, hr]
  | cons d s ih =>
      have hd : isDigitB d = true := hs d (by simp)
      simp only [List.cons_append, parseDigits, hd, if_pos, List.append_eq]
      rw [ih (10 * acc + (d - 48)) (fun c hc => hs c (List.mem_cons_of_mem _ hc))]
      rfl

theorem natDecimal_digits (n : Nat) : ∀ c ∈ natDecimal n, isDigitB c = true := by
  induction n using Nat.strong_induction_on with
  | _ n ih =>
    rw [natDecimal_eq]
    by_cases h : n < 10
    · rw [if_pos h]
      intro c hc
      simp at hc
      simp [isDigitB, hc]
      omega
    · rw [if_neg h]
      intro c hc
      rcases List.mem_append.1 hc with h1 | h1
      · exact ih (n / 10) (by omega) c h1
      · simp at h1
        simp [isDigitB, h1]
        omega

theorem natDecimal_ne_nil (n : Nat) : natDecimal n ≠ [] := by
  rw [natDecimal_eq]
  split
  · simp
  · simp

theorem digitsVal_natDecimal (n : Nat) : digitsVal 0 (natDecimal n) = n := by
  induction n using Nat.strong_induction_on with
  | _ n ih =>
    rw [natDecimal_eq]
    by_cases h : n < 10
    · rw [if_pos h]
      simp [digitsVal]
    · rw [if_neg h]
      have := ih (n / 10) (by omega)
      simp only [digitsVal, List.foldl_append, List.foldl_cons, List.foldl_nil] at this ⊢
      rw [this]
      omega

/-- The decimal rendering of `n ≥ 1` does not start with the digit 0. -/
theorem natDecimal_head_ne_48 (n : Nat) (hn : 1 ≤ n) :
    ∀ d ds, natDecimal n = d :: ds → d ≠ 48 := by
  induction n using Nat.strong_induction_on with
  | _ n ih =>
    rw [natDecimal_eq]
    by_cases h : n < 10
    · rw [if_pos h]
      intro d ds hd
      simp at hd
      omega
    · rw [if_neg h]
      intro d ds hd
      have h10 : 1 ≤ n / 10 := by omega
      obtain ⟨d0, ds0, hd0⟩ : ∃ d0 ds0, natDecimal (n / 10) = d0 :: ds0 := by
        cases hnd : natDecimal (n / 10) with
        | nil => exact absurd hnd (natDecimal_ne_nil _)
        | cons a b => exact ⟨a, b, rfl⟩
      rw [hd0] at hd
      simp at hd
      exact hd.1 ▸ ih (n / 10) (by omega) h10 d0 ds0 hd0

/-- If the decimal rendering starts with `0` the number is below ten, so
the rendering is the single digit. -/
theorem natDecimal_head_48 (n : Nat) (d : Nat) (ds : List Nat)
    (hd : natDecimal n = d :: ds) (h48 : d = 48) : ds = [] := by
  by_cases h : n < 10
  · rw [natDecimal_eq, if_pos h] at hd
    simp at hd
    exact hd.2
  · exact absurd h48 (natDecimal_head_ne_48 n (by omega) d ds hd)

theorem parseNumber_natDecimal (n : Nat) (rest : List Nat) (hr : headNotNumCont rest) :
    parseNumber (natDecimal n ++ rest) = some (((n : Int), true), rest) := by
  obtain ⟨d, ds, hd⟩ : ∃ d ds, natDecimal n = d :: ds := by
    cases hnd : natDecimal n with
    | nil => exact absurd hnd (natDecimal_ne_nil _)
    | cons a b => exact ⟨a, b, rfl⟩
  have hdig : isDigitB d = true := natDecimal_digits n d (by simp [hd])
  have hd48 : 48 ≤ d ∧ d ≤ 57 := by
    simpa [isDigitB, decide_eq_true_eq] using hdig
  have hne45 : (d = 45) = False := by simp; omega
  have hrdig : headIsDigitB rest = false := by
    cases rest with
    | nil => rfl
    | cons c r =>
        obtain ⟨h1, _, _, _⟩ := hr
        simp [headIsDigitB, h1]
  have hlz : (d = 48 && headIsDigitB (ds ++ rest)) = false := by
    by_cases hz : d = 48
    · have : ds = [] := natDecimal_head_48 n d ds hd hz
      simp [this, hrdig]
    · simp [hz]
  have hdigits : parseDigits (ds ++ rest) (d - 48) = (n, rest) := by
    have happ := parseDigits_append ds rest (d - 48)
      (fun c hc => natDecimal_digits n c (by simp [hd, hc]))
      (by cases rest with
          | nil => trivial
          | cons c r => exact hr.1)
    rw [happ]
    have hv := digitsVal_natDecimal n
    rw [hd] at hv
    simp only [digitsVal, List.foldl_cons] at hv
    rw [show 10 * 0 + (d - 48) = d - 48 by omega] at hv
    simp only [digitsVal]
    rw [hv]
  have hfrac : parseFracPart rest = some (false, rest) := by
    cases rest with
    | nil => rfl
    | cons c r =>
        obtain ⟨_, h46, _, _⟩ := hr
        simp [parseFracPart, h46]
  have hexp : parseExpPart rest = some (false, rest) := by
    cases rest with
    | nil => rfl
    | cons c r =>
        obtain ⟨_, _, h101, h69⟩ := hr
        simp [parseExpPart, h101, h69]
  rw [hd]
  simp only [List.cons_append, parseNumber, hne45, if_false, parseNumberCore,
    hdig, not_true, if_neg, hlz, Bool.false_eq_true, hdigits, hfrac, hexp]
  simp

/-- Characters that a JSON string can carry verbatim. -/
def plainChar (c : Nat) : Prop := 32 ≤ c ∧ c ≠ 34 ∧ c ≠ 92

theorem parseStringBody_plain (s rest : List Nat) (hs : ∀ c ∈ s, plainChar c) :
    parseStringBody (s ++ 34 :: rest) = some (s, rest) := by
  induction s with
  | nil =>
      rw [List.nil_append, parseStringBody.eq_def]
      simp
  | cons c s ih =>
      obtain ⟨h1, h2, h3⟩ := hs c (by simp)
      have h4 : ¬ c < 32 := by omega
      rw [List.cons_append, parseStringBody.eq_def]
      simp only [h2, h3, h4, if_false]
      rw [ih (fun x hx => hs x (by simp [hx]))]
      rfl

theorem base64Encode_plain (l : List Nat) : ∀ c ∈ base64Encode l, plainChar c := by
  have h61 : plainChar 61 := by simp [plainChar]
  have hp : ∀ n, plainChar (b64digit n) := fun n => by
    obtain ⟨a, b, c, d, e⟩ := b64digit_plain n
    exact ⟨a, c, d⟩
  induction l using base64Encode.induct with
  | case1 => simp [base64Encode]
  | case2 b0 =>
      intro c hc
      simp [base64Encode] at hc
      rcases hc with h | h | h
      · exact h ▸ hp _
      · exact h ▸ hp _
      · exact h ▸ h61
  | case3 b0 b1 =>
      intro c hc
      simp [base64Encode] at hc
      rcases hc with h | h | h | h
      · exact h ▸ hp _
      · exact h ▸ hp _
      · exact h ▸ hp _
      · exact h ▸ h61
  | case4 b0 b1 b2 rest ih =>
      intro c hc
      simp [base64Encode] at hc
      rcases hc with h | h | h | h | h
      · exact h ▸ hp _
      · exact h ▸ hp _
      · exact h ▸ hp _
      · exact h ▸ hp _
      · exact ih c h

instance : DecidablePred plainChar := fun c => by unfold plainChar; infer_instance

/-- The field list decoded from the canonical message encoding. -/
def messageFields (m : Message) : List (List Nat × JValue) :=
  (strBytes "type", JValue.num m.type true) ::
    (if m.payload = [] then []
     else [(strBytes "payload", JValue.str (base64Encode m.payload))])

theorem isWsB_of_digit (c : Nat) (h : isDigitB c = true) : isWsB c = false := by
  simp [isDigitB, decide_eq_true_eq] at h
  simp [isWsB]
  omega

theorem parseValue_natDecimal (t : Nat) (tail : List Nat) (f : Nat) (hf : f ≠ 0)
    (ht : headNotNumCont tail) :
    parseValue f (natDecimal t ++ tail) = some (JValue.num t true, tail) := by
  obtain ⟨f, rfl⟩ : ∃ g, f = g + 1 := ⟨f - 1, by omega⟩
  obtain ⟨d, ds, hd⟩ : ∃ d ds, natDecimal t = d :: ds := by
    cases hnd : natDecimal t with
    | nil => exact absurd hnd (natDecimal_ne_nil _)
    | cons a b => exact ⟨a, b, rfl⟩
  have hdig : isDigitB d = true := natDecimal_digits t d (by simp [hd])
  have hnum := parseNumber_natDecimal t tail ht
  rw [hd] at hnum ⊢
  simp only [List.cons_append] at hnum ⊢
  rw [parseValue, skipWs_cons _ _ (isWsB_of_digit d hdig)]
  simp only [hdig, true_or, if_pos, hnum]
  rfl

theorem parseValue_objOpen (f : Nat) (X : List Nat) :
    parseValue (f + 1) (123 :: 34 :: X) =
      (parseMembers f (34 :: X)).map (fun x => (JValue.obj x.1, x.2)) := by
  rw [parseValue, skipWs_cons _ _ (by decide)]
  simp only [skipWs]
  norm_num [isDigitB, isWsB]

theorem parseValue_strOpen (f : Nat) (X : List Nat) :
    parseValue (f + 1) (34 :: X) =
      (parseStringBody X).map (fun x => (JValue.str x.1, x.2)) := by
  rw [parseValue, skipWs_cons _ _ (by decide)]
  norm_num [isDigitB]

theorem parseMembers_key (f : Nat) (r : List Nat) :
    parseMembers (f + 1) (34 :: r) =
      (do
        let kr ← parseStringBody r
        match skipWs kr.2 with
        | 58 :: r2 => do
            let vr ← parseValue f r2
            match skipWs vr.2 with
            | 44 :: r4 => do
                let fr ← parseMembers f (skipWs r4)
                pure ((kr.1, vr.1) :: fr.1, fr.2)
            | 125 :: r4 => pure ([(kr.1, vr.1)], r4)
            | _ => none
        | _ => none) := by
  rw [parseMembers.eq_def]

theorem parseValue_marshalMessage (m : Message) (g : Nat) :
    parseValue (g + 4) (marshalMessage m) = some (JValue.obj (messageFields m), []) := by
  have hty : strBytes "type" = [116, 121, 112, 101] := by decide
  have hpl : strBytes "payload" = [112, 97, 121, 108, 111, 97, 100] := by decide
  by_cases hp : m.payload = []
  · have hnum := parseValue_natDecimal m.type [125] (g + 2) (by omega)
      (by refine ⟨?_, ?_, ?_, ?_⟩ <;> decide)
    have hkey := parseStringBody_plain [116, 121, 112, 101] (58 :: (natDecimal m.type ++ [125]))
      (by decide)
    simp only [List.cons_append, List.nil_append] at hkey
    rw [marshalMessage, strBytes_typeKey, strBytes_closeObj, if_pos hp]
    simp only [List.cons_append, List.nil_append]
    rw [parseValue_objOpen, parseMembers_key, hkey]
    simp only [Option.bind_eq_bind, Option.some_bind]
    rw [skipWs_cons _ _ (by decide)]
    norm_num
    rw [hnum]
    simp only [Option.bind_eq_bind, Option.some_bind]
    simp [skipWs, isWsB, messageFields, hp, hty]
  · have htail : headNotNumCont (44 :: 34 :: 112 :: 97 :: 121 :: 108 :: 111 :: 97 :: 100 ::
        34 :: 58 :: 34 :: (base64Encode m.payload ++ [34, 125])) := by
      refine ⟨?_, ?_, ?_, ?_⟩ <;> decide
    have hnum := parseValue_natDecimal m.type _ (g + 2) (by omega) htail
    have hkey := parseStringBody_plain [116, 121, 112, 101]
      (58 :: (natDecimal m.type ++ (44 :: 34 :: 112 :: 97 :: 121 :: 108 :: 111 :: 97 :: 100 ::
        34 :: 58 :: 34 :: (base64Encode m.payload ++ [34, 125])))) (by decide)
    simp only [List.cons_append, List.nil_append] at hkey
    have hkey2 := parseStringBody_plain [112, 97, 121, 108, 111, 97, 100]
      (58 :: 34 :: (base64Encode m.payload ++ [34, 125])) (by decide)
    simp only [List.cons_append, List.nil_append] at hkey2
    have hb64 : parseStringBody (base64Encode m.payload ++ [34, 125]) =
        some (base64Encode m.payload, [125]) := by
      have h2 := parseStringBody_plain (base64Encode m.payload) [125] (base64Encode_plain _)
      simpa using h2
    rw [marshalMessage, strBytes_typeKey, strBytes_payloadKey, strBytes_closeStr, if_neg hp]
    simp only [List.cons_append, List.nil_append, List.append_assoc]
    rw [parseValue_objOpen, parseMembers_key, hkey]
    simp only [Option.bind_eq_bind, Option.some_bind]
    rw [skipWs_cons _ _ (by decide)]
    norm_num
    rw [hnum]
    simp only [Option.bind_eq_bind, Option.some_bind]
    rw [skipWs_cons _ _ (by decide)]
    norm_num
    rw [skipWs_cons _ _ (by decide)]
    rw [parseMembers_key, hkey2]
    simp only [Option.bind_eq_bind, Option.some_bind]
    rw [skipWs_cons _ _ (by decide)]
    norm_num
    rw [parseValue_strOpen, hb64]
    simp [skipWs, isWsB, messageFields, hp, hty, hpl]

theorem unmarshalMessage_marshalMessage (m : Message) (h : m.wf) :
    unmarshalMessage (marshalMessage m) = some m := by
  have h8 : 8 ≤ (marshalMessage m).length := by
    rw [marshalMessage, strBytes_typeKey]
    simp [List.length_append]
  unfold unmarshalMessage parseJson
  obtain ⟨g, hg⟩ : ∃ g, 2 * (marshalMessage m).length + 2 = g + 4 := by
    refine ⟨2 * (marshalMessage m).length - 2, ?_⟩
    omega
  rw [hg, parseValue_marshalMessage]
  have ht : (0 : Int) ≤ (m.type : Int) ∧ (m.type : Int) < 256 := by
    constructor
    · positivity
    · exact_mod_cast h.1
  have hk1 : strBytes "payload" ≠ strBytes "type" := by decide
  have hk2 : strBytes "type" ≠ strBytes "payload" := by decide
  obtain ⟨t, p⟩ := m
  by_cases hp : Message.payload ⟨t, p⟩ = []
  · simp only [Message.payload] at hp
    subst hp
    simp [skipWs, messageFields, jlookup, ht.1, ht.2, hk1, hk2]
  · simp only [Message.payload] at hp
    simp [skipWs, messageFields, jlookup, hp, ht.1, ht.2, hk1, hk2,
      base64_roundtrip p h.2]

instance {ε α : Type} [DecidableEq ε] [DecidableEq α] : DecidableEq (Except ε α) := fun x y =>
  match x, y with
  | .error a, .error b =>
      if h : a = b then isTrue (by rw [h]) else isFalse (fun hc => h (Except.error.injEq .. ▸ hc))
  | .ok a, .ok b =>
      if h : a = b then isTrue (by rw [h]) else isFalse (fun hc => h (Except.ok.injEq .. ▸ hc))
  | .error _, .ok _ => isFalse (fun hc => Except.noConfusion hc)
  | .ok _, .error _ => isFalse (fun hc => Except.noConfusion hc)

theorem maxMessageSize_eq : MaxMessageSize = 104857600 := by decide

/-- C4: a frame whose 4-byte big-endian length prefix exceeds
`MaxMessageSize` makes `ReadMessage` fail at the length check, whatever
bytes follow the prefix: the error is produced before the payload is
read or its buffer allocated. -/
theorem readMessage_rejects_oversize (b0 b1 b2 b3 : Nat) (rest : List Nat)
    (h : MaxMessageSize < be32dec b0 b1 b2 b3) :
    readMessage (b0 :: b1 :: b2 :: b3 :: rest) = .error (strBytes "message too large") := by
  rw [readMessage, if_pos h]

/-- Witness for `readMessage_rejects_oversize` at the concrete prefix
`07 00 00 00` (length 117440512 > 100 MiB) with an empty remainder. -/
theorem readMessage_rejects_oversize_witness :
    MaxMessageSize < be32dec 7 0 0 0 ∧
      readMessage (7 :: 0 :: 0 :: 0 :: []) = .error (strBytes "message too large") :=
  ⟨by decide, readMessage_rejects_oversize 7 0 0 0 [] (by decide)⟩

/-- The framing codec round-trips every well-formed message whose JSON
encoding does not exceed `MaxMessageSize`, leaving any following bytes
on the stream. -/
theorem readMessage_writeMessage_ok (m : Message) (extra : List Nat) (hwf : m.wf)
    (hsize : (marshalMessage m).length ≤ MaxMessageSize) :
    readMessage (writeMessage m ++ extra) = .ok (m, extra) := by
  have hlt : (marshalMessage m).length < 2 ^ 32 := by
    rw [maxMessageSize_eq] at hsize
    have : (104857600 : Nat) < 2 ^ 32 := by norm_num
    omega
  rw [writeMessage, Nat.mod_eq_of_lt hlt, be32enc]
  simp only [List.cons_append, List.nil_append, List.append_assoc]
  rw [readMessage, be32_roundtrip _ hlt]
  rw [if_neg (by omega)]
  rw [if_neg (by simp [List.length_append])]
  rw [List.take_left, List.drop_left, unmarshalMessage_marshalMessage m hwf]

/-- C6 (amended): the framing codec round-trips every well-formed
message whose JSON encoding does not exceed `MaxMessageSize`, leaving
any following bytes on the stream. -/
theorem readMessage_writeMessage_roundtrip (m : Message) (extra : List Nat) (hwf : m.wf)
    (hsize : (marshalMessage m).length ≤ MaxMessageSize) :
    readMessage (writeMessage m ++ extra) = .ok (m, extra) :=
  readMessage_writeMessage_ok m extra hwf hsize

/-- Witness for `readMessage_writeMessage_roundtrip` on a concrete
message with payload bytes and trailing stream data. -/
theorem readMessage_writeMessage_roundtrip_witness :
    (Message.mk 2 [1, 2, 3, 255]).wf ∧
      (marshalMessage ⟨2, [1, 2, 3, 255]⟩).length ≤ MaxMessageSize ∧
      readMessage (writeMessage ⟨2, [1, 2, 3, 255]⟩ ++ [9, 9]) = .ok (⟨2, [1, 2, 3, 255]⟩, [9, 9]) :=
  ⟨by decide, by decide,
    readMessage_writeMessage_roundtrip ⟨2, [1, 2, 3, 255]⟩ [9, 9] (by decide) (by decide)⟩

/-- C6 (counterexample): framing does not round-trip arbitrary
messages. For the message with type 0 and a 100 MiB payload the JSON
encoding is about 139.8 MiB (base64 expansion), so `ReadMessage`
rejects the frame that `WriteMessage` produced. -/
theorem readMessage_writeMessage_oversize_fails :
    readMessage (writeMessage ⟨0, List.replicate 104857600 65⟩) =
      .error (strBytes "message too large") := by
  have hne : List.replicate 104857600 65 ≠ ([] : List Nat) := by
    apply List.ne_nil_of_length_pos
    rw [List.length_replicate]
    norm_num
  have hlen : (marshalMessage ⟨0, List.replicate 104857600 65⟩).length = 139810159 := by
    rw [marshalMessage]
    simp only [hne, if_false, List.length_append, base64Encode_length, List.length_replicate]
    rw [show natDecimal 0 = [48] from rfl]
    rw [strBytes_typeKey, strBytes_payloadKey, strBytes_closeStr]
    norm_num
  rw [writeMessage, hlen]
  rw [show (139810159 : Nat) % 2 ^ 32 = 139810159 from by norm_num]
  rw [show be32enc 139810159 = [8, 85, 85, 111] from by decide]
  simp only [List.cons_append, List.nil_append]
  rw [readMessage, if_pos (by decide : MaxMessageSize < be32dec 8 85 85 111)]

end Transfer

namespace P2P

/-! ## Rendezvous derivation (`codeToRendezvous` in the p2p package)

`codeToRendezvous(code) = fmt.Sprintf("%s/%x", RendezvousNS,
sha256.Sum256(code)[:8])`. SHA-256 is implemented here in full so the
concrete rendezvous vectors are established inside the model; 32-bit
words are `Nat` with explicit `% 2^32`. -/

def RendezvousNS : List Nat := Transfer.strBytes "2c1f-rendezvous"

def add32 (a b : Nat) : Nat := (a + b) % 4294967296

def rotr32 (n x : Nat) : Nat := ((x >>> n) ||| (x <<< (32 - n))) % 4294967296

def sha256H0 : List Nat :=
  [1779033703, 3144134277, 1013904242, 2773480762,
    1359893119, 2600822924, 528734635, 1541459225]

def sha256K : List Nat :=
  [1116352408, 1899447441, 3049323471, 3921009573, 961987163,
    1508970993, 2453635748, 2870763221, 3624381080, 310598401,
    607225278, 1426881987, 1925078388, 2162078206, 2614888103,
    3248222580, 3835390401, 4022224774, 264347078, 604807628,
    770255983, 1249150122, 1555081692, 1996064986, 2554220882,
    2821834349, 2952996808, 3210313671, 3336571891, 3584528711,
    113926993, 338241895, 666307205, 773529912, 1294757372,
    1396182291, 1695183700, 1986661051, 2177026350, 2456956037,
    2730485921, 2820302411, 3259730800, 3345764771, 3516065817,
    3600352804, 4094571909, 275423344, 430227734, 506948616,
    659060556, 883997877, 958139571, 1322822218, 1537002063,
    1747873779, 1955562222, 2024104815, 2227730452, 2361852424,
    2428436474, 2756734187, 3204031479, 3329325298]

def be64 (n : Nat) : List Nat :=
  [n >>> 56 % 256, n >>> 48 % 256, n >>> 40 % 256, n >>> 32 % 256,
   n >>> 24 % 256, n >>> 16 % 256, n >>> 8 % 256, n % 256]

/-- Merkle–Damgård padding: `0x80`, zeros to 56 mod 64, 8-byte
big-endian bit length. -/
def sha256Pad (msg : List Nat) : List Nat :=
  msg ++ 128 :: (List.replicate ((119 - msg.length % 64) % 64) 0 ++ be64 (8 * msg.length))

def toWords : List Nat → List Nat
  | b0 :: b1 :: b2 :: b3 :: rest => (((b0 * 256 + b1) * 256 + b2) * 256 + b3) :: toWords rest
  | _ => []

def smallSigma0 (x : Nat) : Nat := (rotr32 7 x) ^^^ (rotr32 18 x) ^^^ (x >>> 3)

def smallSigma1 (x : Nat) : Nat := (rotr32 17 x) ^^^ (rotr32 19 x) ^^^ (x >>> 10)

def bigSigma0 (x : Nat) : Nat := (rotr32 2 x) ^^^ (rotr32 13 x) ^^^ (rotr32 22 x)

def bigSigma1 (x : Nat) : Nat := (rotr32 6 x) ^^^ (rotr32 11 x) ^^^ (rotr32 25 x)

/-- Message-schedule extension; `rws` holds the words produced so far,
most recent first. -/
def extendSched : Nat → List Nat → List Nat
  | 0, rws => rws
  | k + 1, rws =>
      let w := add32 (add32 (smallSigma1 (rws.getD 1 0)) (rws.getD 6 0))
        (add32 (smallSigma0 (rws.getD 14 0)) (rws.getD 15 0))
      extendSched k (w :: rws)

def schedule (block : List Nat) : List Nat :=
  (extendSched 48 (toWords block).reverse).reverse

def chF (e f g : Nat) : Nat := (e &&& f) ^^^ ((e ^^^ 4294967295) &&& g)

def majF (a b c : Nat) : Nat := (a &&& b) ^^^ (a &&& c) ^^^ (b &&& c)

def compressStep (st : List Nat) (kw : Nat × Nat) : List Nat :=
  match st with
  | [a, b, c, d, e, f, g, h] =>
      let t1 := add32 h (add32 (bigSigma1 e) (add32 (chF e f g) (add32 kw.1 kw.2)))
      let t2 := add32 (bigSigma0 a) (majF a b c)
      [add32 t1 t2, a, b, c, add32 d t1, e, f, g]
  | other => other

def compressBlock (h : List Nat) (block : List Nat) : List Nat :=
  List.zipWith add32 h ((List.zip sha256K (schedule block)).foldl compressStep h)

/-- Fold the compression function over 64-byte blocks; the fuel is ample
whenever it is at least the number of blocks. -/
def sha256BlocksF : Nat → List Nat → List Nat → List Nat
  | 0, h, _ => h
  | f + 1, h, bytes =>
      if bytes = [] then h
      else sha256BlocksF f (compressBlock h (bytes.take 64)) (bytes.drop 64)

/-- SHA-256 digest (32 bytes) of a byte sequence. -/
def sha256 (msg : List Nat) : List Nat :=
  let padded := sha256Pad msg
  (sha256BlocksF padded.length sha256H0 padded).foldr
    (fun w acc => w >>> 24 % 256 :: w >>> 16 % 256 :: w >>> 8 % 256 :: w % 256 :: acc) []

/-- Lowercase hex digit. -/
def hexDigit (n : Nat) : Nat := if n < 10 then 48 + n else 87 + n

/-- Lowercase hex of a byte sequence (Go `%x` on a byte slice). -/
def hexBytes (l : List Nat) : List Nat :=
  l.foldr (fun b acc => hexDigit (b / 16) :: hexDigit (b % 16) :: acc) []

/-- `codeToRendezvous`: namespace, `/`, lowercase hex of the first 8
digest bytes of SHA-256 of the code string. -/
def codeToRendezvous (code : List Nat) : List Nat :=
  RendezvousNS ++ 47 :: hexBytes ((sha256 code).take 8)

/-- C7 (amended): `codeToRendezvous` is the pure function appending the
namespace, a slash, and the lowercase hex of the first eight SHA-256
digest bytes of the code; the unit-test vectors `"123456" ->
".../8d969eef6ecad3c2"` and `"654321" -> ".../481f6cc0511143cc"` hold.
The digest input is the raw code string, so the hyphenated code
`"123-456"` does not produce the `8d96...` key (see the
counterexample). -/
theorem codeToRendezvous_spec :
    codeToRendezvous (Transfer.strBytes "123456") =
        Transfer.strBytes "2c1f-rendezvous/8d969eef6ecad3c2" ∧
      codeToRendezvous (Transfer.strBytes "654321") =
        Transfer.strBytes "2c1f-rendezvous/481f6cc0511143cc" ∧
      ∀ code, codeToRendezvous code = RendezvousNS ++ 47 :: hexBytes ((sha256 code).take 8) :=
  ⟨by decide, by decide, fun code => rfl⟩

/-- C7 (counterexample): the concrete scenario in the claim is false on
the code: `codeToRendezvous "123-456"` hashes the hyphenated string,
giving `.../83a417f0862b6610`, not `.../8d969eef6ecad3c2` (the latter
is SHA-256 of `"123456"`). -/
theorem codeToRendezvous_claimed_vector_fails :
    codeToRendezvous (Transfer.strBytes "123-456") =
        Transfer.strBytes "2c1f-rendezvous/83a417f0862b6610" ∧
      codeToRendezvous (Transfer.strBytes "123-456") ≠
        Transfer.strBytes "2c1f-rendezvous/8d969eef6ecad3c2" :=
  ⟨by decide, by decide⟩

end P2P

namespace Transfer

/-! ## Paths (`path/filepath` on Unix: separator `/`, `FromSlash` = id) -/

/-- Split a path on `/` (47), keeping empty components. -/
def splitSlashAux : List Nat → List Nat → List (List Nat)
  | [], acc => [acc.reverse]
  | c :: rest, acc =>
      if c = 47 then acc.reverse :: splitSlashAux rest [] else splitSlashAux rest (c :: acc)

def splitSlash (p : List Nat) : List (List Nat) := splitSlashAux p []

/-- The component processing of `filepath.Clean`: drop empty and `.`
components; `..` pops the previous real component, is dropped at the
root, and is kept at the front of a relative path. -/
def cleanComps (rooted : Bool) (cs : List (List Nat)) : List (List Nat) :=
  cs.foldl (fun out c =>
    if c = [] ∨ c = [46] then out
    else if c = [46, 46] then
      (if out ≠ [] ∧ out.getLast? ≠ some [46, 46] then out.dropLast
       else if rooted then out
       else out ++ [c])
    else out ++ [c]) []

/-- `filepath.Clean` (Unix): lexical normalisation. -/
def pathClean (p : List Nat) : List Nat :=
  if p = [] then [46]
  else
    let rooted := p.head? = some 47
    let body := List.intercalate [47] (cleanComps rooted (splitSlash p))
    if rooted then 47 :: body
    else if body = [] then [46]
    else body

/-- `filepath.Join` of two elements: non-empty elements joined with `/`
then cleaned; all-empty gives the empty path. -/
def pathJoin (a b : List Nat) : List Nat :=
  if a = [] ∧ b = [] then []
  else if a = [] then pathClean b
  else if b = [] then pathClean a
  else pathClean (a ++ 47 :: b)

/-- `strings.HasPrefix s pre`. -/
def goHasPrefix (s pre : List Nat) : Bool := pre.isPrefixOf s

/-- A path lies inside the directory `d` in the lexical sense: it is `d`
itself or extends it past a separator. -/
def underDir (p d : List Nat) : Prop := p = d ∨ goHasPrefix p (d ++ [47]) = true

instance (p d : List Nat) : Decidable (underDir p d) := by unfold underDir; infer_instance

/-! ## The transfer data model -/

structure FileEntry where
  path : List Nat
  size : Int
  mode : Nat
  checksum : List Nat
  blockHashes : List (List Nat)
  blockSize : Int
deriving DecidableEq, Repr

structure Manifest where
  folderName : List Nat
  totalSize : Int
  files : List FileEntry
deriving DecidableEq, Repr

/-- The filesystem: an association list from paths to file contents
(first match wins). -/
abbrev Fs : Type := List (List Nat × List Nat)

def fsGet (fs : Fs) (p : List Nat) : Option (List Nat) :=
  (List.find? (fun kv => decide (kv.1 = p)) fs).map (fun kv => kv.2)

def fsSet (fs : Fs) (p v : List Nat) : Fs := (p, v) :: fs

/-! ## `Receiver.verifyLocalFile` -/

/-- The block-verification loop: `io.ReadFull` of `bs` bytes per
expected digest; a full matching block adds `bs` and continues, the
short final read (`ErrUnexpectedEOF`) adds its byte count if it matches
and stops, EOF or a mismatch stops. -/
def verifyBlocks (hashHex : List Nat → List Nat) (bs : Nat) :
    List (List Nat) → List Nat → Int → Int
  | [], _, acc => acc
  | hsh :: hs, content, acc =>
      if content.length = 0 then acc
      else if content.length < bs then
        (if hashHex content = hsh then acc + content.length else acc)
      else
        if hashHex (content.take bs) = hsh then
          verifyBlocks hashHex bs hs (content.drop bs) (acc + bs)
        else acc

/-- `Receiver.verifyLocalFile`: absent file gives offset 0 (the caller
ignores the `os.Stat` error); fast resume and hash-less entries trust
the on-disk length unless it exceeds the entry size; otherwise the file
is walked block by block. `hashHex` is the hex BLAKE3 digest oracle. -/
def verifyLocalFile (hashHex : List Nat → List Nat) (fastResume : Bool)
    (fs : Fs) (path : List Nat) (entry : FileEntry) : Int :=
  match fsGet fs path with
  | none => 0
  | some content =>
      let size : Int := content.length
      if fastResume then
        (if size > entry.size then 0 else size)
      else if entry.blockHashes = [] then
        (if size > entry.size then 0 else size)
      else
        let blockSize := if entry.blockSize = 0 then LegacyBlockSize else entry.blockSize
        verifyBlocks hashHex blockSize.toNat entry.blockHashes content 0

/-- The specification's walk: accumulate byte counts of leading blocks
whose digests match, stopping at the first mismatch or end of data. -/
def blockVerifiedSpec (hashHex : List Nat → List Nat) (bs : Nat) :
    List (List Nat) → List Nat → Int
  | [], _ => 0
  | hsh :: hs, content =>
      if content = [] then 0
      else if hashHex (content.take bs) = hsh then
        (content.take bs).length + blockVerifiedSpec hashHex bs hs (content.drop bs)
      else 0

theorem blockVerifiedSpec_nil (hashHex : List Nat → List Nat) (bs : Nat)
    (hs : List (List Nat)) : blockVerifiedSpec hashHex bs hs [] = 0 := by
  cases hs <;> simp [blockVerifiedSpec]

theorem verifyBlocks_eq_spec (hashHex : List Nat → List Nat) (bs : Nat)
    (hs : List (List Nat)) (content : List Nat) (acc : Int) :
    verifyBlocks hashHex bs hs content acc = acc + blockVerifiedSpec hashHex bs hs content := by
  induction hs generalizing content acc with
  | nil => simp [verifyBlocks, blockVerifiedSpec]
  | cons hsh hs ih =>
      simp only [verifyBlocks, blockVerifiedSpec]
      by_cases h0 : content.length = 0
      · have hc : content = [] := List.length_eq_zero.mp h0
        subst hc
        simp
      · have hne : ¬ content = [] := fun hc => h0 (by simp [hc])
        rw [if_neg h0, if_neg hne]
        by_cases hlt : content.length < bs
        · have htake : content.take bs = content := List.take_of_length_le (by omega)
          have hdrop : content.drop bs = [] := List.drop_eq_nil_of_le (by omega)
          rw [if_pos hlt, htake]
          by_cases hm : hashHex content = hsh
          · rw [if_pos hm, if_pos hm, hdrop, blockVerifiedSpec_nil]
            ring
          · rw [if_neg hm, if_neg hm]
            ring
        · rw [if_neg hlt]
          by_cases hm : hashHex (content.take bs) = hsh
          · rw [if_pos hm, if_pos hm, ih]
            have hl : (content.take bs).length = bs := by
              rw [List.length_take]
              omega
            rw [hl]
            ring
          · rw [if_neg hm, if_neg hm]
            ring

/-! ## The Receiver's pre-transfer path checks (`Receive`, before any
message of the streaming phase) -/

/-- The per-entry loop of `Receive`: join, check with
`strings.HasPrefix` (no separator appended), then compute the trusted
offset on the local path. Returns the resume offsets and the list of
local paths handed to `verifyLocalFile` (each is `os.Stat`-ed and, in
the block-verification mode, `os.Open`-ed). -/
def precheckFiles (hashHex : List Nat → List Nat) (fastResume : Bool) (fs : Fs)
    (destFolder : List Nat) :
    List FileEntry → Except (List Nat) (List (List Nat × Int) × List (List Nat))
  | [] => .ok ([], [])
  | f :: rest =>
      let localPath := pathJoin destFolder f.path
      if ¬ goHasPrefix localPath (pathClean destFolder) then
        .error (strBytes "invalid file path in manifest")
      else
        let offset := verifyLocalFile hashHex fastResume fs localPath f
        match precheckFiles hashHex fastResume fs destFolder rest with
        | .error e => .error e
        | .ok (offs, checked) =>
            .ok ((if offset > 0 then [(f.path, offset)] else []) ++ offs,
                 localPath :: checked)

structure PrecheckOut where
  destFolder : List Nat
  offsets : List (List Nat × Int)
  checked : List (List Nat)
deriving DecidableEq, Repr

/-- Lines 89–111 of `Receive`: destination-folder check, per-entry path
check and trusted-offset computation, before `MkdirAll` and the
`Resume` message. -/
def receivePrecheck (hashHex : List Nat → List Nat) (fastResume : Bool) (fs : Fs)
    (destPath : List Nat) (manifest : Manifest) : Except (List Nat) PrecheckOut :=
  let destFolder := pathJoin destPath manifest.folderName
  if ¬ goHasPrefix destFolder (pathClean destPath) then
    .error (strBytes "invalid folder name")
  else
    match precheckFiles hashHex fastResume fs destFolder manifest.files with
    | .error e => .error e
    | .ok (offs, checked) => .ok ⟨destFolder, offs, checked⟩

/-- C1: the pre-transfer path check uses `strings.HasPrefix` without
appending a separator, so a manifest entry `"../foox"` whose cleaned
local path `/dst/foox` merely extends the destination folder `/dst/foo`
as a string passes the check: the pre-check succeeds (no path error),
the escaping path is handed to `verifyLocalFile` (stat/open outside the
root) and its on-disk data even produces a resume offset. The same
missing separator lets a folder name `"../dst2"` place the destination
folder outside the destination path. The claim that every escaping
manifest path aborts the transfer before any disk access is therefore
false on the code. -/
theorem receivePrecheck_accepts_escaping_path :
    receivePrecheck (fun _ => []) false [(strBytes "/dst/foox", [9, 9, 9])]
        (strBytes "/dst")
        ⟨strBytes "foo", 3, [⟨strBytes "../foox", 3, 420, [], [], 0⟩]⟩ =
      .ok ⟨strBytes "/dst/foo", [(strBytes "../foox", 3)], [strBytes "/dst/foox"]⟩ ∧
      ¬ underDir (strBytes "/dst/foox") (strBytes "/dst/foo") ∧
      goHasPrefix (pathJoin (strBytes "/dst") (strBytes "../dst2"))
        (pathClean (strBytes "/dst")) = true ∧
      pathJoin (strBytes "/dst") (strBytes "../dst2") = strBytes "/dst2" ∧
      ¬ underDir (strBytes "/dst2") (strBytes "/dst") :=
  ⟨by decide, by decide, by decide, by decide, by decide⟩

/-- C2 (counterexample): in block-verification mode `verifyLocalFile`
never compares the on-disk size with the entry size. With a 6-byte
local file, an entry of size 4 with one 4-byte block whose digest
matches the file's first 4 bytes, the function returns offset 4, not
the 0 the claim requires for every mode. (The digest oracle is the
constant `"h"`; an adversarial or corrupted manifest can carry exactly
the digest of the file's first block.) -/
theorem verifyLocalFile_larger_not_zero_in_block_mode :
    verifyLocalFile (fun _ => strBytes "h") false
        [(strBytes "/d/f", [9, 9, 9, 9, 9, 9])] (strBytes "/d/f")
        ⟨strBytes "f", 4, 420, [], [strBytes "h"], 4⟩ = 4 ∧
      (4 : Int) ≠ 0 ∧ ((4 : Int) < 6) :=
  ⟨by decide, by decide, by decide⟩

/-- C2 (amended): a local file larger than the entry yields offset 0 in
fast-resume mode and when the entry has no block hashes; in
block-verification mode the size rule is not applied and the result is
the byte count of the leading blocks whose digests match, stopping at
the first mismatch or end of data. -/
theorem verifyLocalFile_modes (hashHex : List Nat → List Nat) (fastResume : Bool)
    (fs : Fs) (path : List Nat) (entry : FileEntry) (content : List Nat)
    (hget : fsGet fs path = some content) :
    ((fastResume = true ∨ entry.blockHashes = []) → entry.size < (content.length : Int) →
        verifyLocalFile hashHex fastResume fs path entry = 0) ∧
      (fastResume = false → entry.blockHashes ≠ [] →
        verifyLocalFile hashHex fastResume fs path entry =
          blockVerifiedSpec hashHex
            ((if entry.blockSize = 0 then LegacyBlockSize else entry.blockSize).toNat)
            entry.blockHashes content) := by
  constructor
  · rintro (hf | hb) hsz
    · simp [verifyLocalFile, hget, hf, hsz]
    · rcases hf2 : fastResume with _ | _
      · simp [verifyLocalFile, hget, hb, hsz]
      · simp [verifyLocalFile, hget, hsz]
  · intro hf hb
    simp [verifyLocalFile, hget, hf, hb, verifyBlocks_eq_spec]

/-- Witness for `verifyLocalFile_modes`: a 3-byte file against a 2-byte
entry in fast-resume mode is treated as corrupt (offset 0). -/
theorem verifyLocalFile_modes_witness :
    fsGet [(strBytes "/d/g", [1, 2, 3])] (strBytes "/d/g") = some [1, 2, 3] ∧
      (((true = true ∨ ([] : List (List Nat)) = []) → (2 : Int) < 3 →
          verifyLocalFile (fun _ => []) true [(strBytes "/d/g", [1, 2, 3])] (strBytes "/d/g")
            ⟨strBytes "g", 2, 420, [], [], 0⟩ = 0) ∧
        (true = false → ([] : List (List Nat)) ≠ [] →
          verifyLocalFile (fun _ => []) true [(strBytes "/d/g", [1, 2, 3])] (strBytes "/d/g")
              ⟨strBytes "g", 2, 420, [], [], 0⟩ =
            blockVerifiedSpec (fun _ => []) (((0 : Int) : Int).toNat) [] [1, 2, 3])) := by
  refine ⟨by decide, ?_⟩
  have h := verifyLocalFile_modes (fun _ => []) true [(strBytes "/d/g", [1, 2, 3])]
    (strBytes "/d/g") ⟨strBytes "g", 2, 420, [], [], 0⟩ [1, 2, 3] (by decide)
  simpa using h

/-! ## `Receiver.receiveFile` -/

structure FileStartMsg where
  path : List Nat
  size : Int
  offset : Int
deriving DecidableEq, Repr

/-- A JSON string field with Go decoding: absent or `null` leaves the
zero value, a string is taken verbatim, any other type is an error. -/
def jStrField (fields : List (List Nat × JValue)) (key : List Nat) : Option (List Nat) :=
  match jlookup fields key with
  | none => some []
  | some JValue.null => some []
  | some (JValue.str s) => some s
  | some _ => none

/-- A JSON `int64` field with Go decoding: absent or `null` leaves the
zero value, a plain integer literal is taken, anything else errors. -/
def jIntField (fields : List (List Nat × JValue)) (key : List Nat) : Option Int :=
  match jlookup fields key with
  | none => some 0
  | some JValue.null => some 0
  | some (JValue.num i isInt) => if isInt then some i else none
  | some _ => none

/-- `json.Unmarshal` into `FileStartMsg`. -/
def unmarshalFileStart (data : List Nat) : Option FileStartMsg :=
  match parseJson data with
  | some (JValue.obj fields) => do
      let p ← jStrField fields (strBytes "path")
      let s ← jIntField fields (strBytes "size")
      let o ← jIntField fields (strBytes "offset")
      pure ⟨p, s, o⟩
  | some JValue.null => some ⟨[], 0, 0⟩
  | _ => none

/-- `filepath.Dir`: everything up to and including the final separator,
cleaned; `.` when there is no separator. -/
def pathDir (p : List Nat) : List Nat :=
  match List.findIdx? (fun c => decide (c = 47)) p.reverse with
  | none => [46]
  | some i => pathClean (p.take (p.length - i))

/-- Filesystem side effects of `receiveFile`, in order. -/
inductive FileEvent where
  | mkdirAll (p : List Nat)
  | openRead (p : List Nat)
  | openWrite (p : List Nat)
deriving DecidableEq, Repr

structure RecvOut where
  fs : Fs
  rest : List Nat
  events : List FileEvent
  err : Option (List Nat)
deriving DecidableEq, Repr

/-- The streaming tail of `receiveFile` after the file is opened for
writing: read exactly `size - offset` bytes (writing them through to
the file and the hasher), then require a `FileEnd` frame, then compare
the finalised digest when the manifest entry carries a checksum. On an
early end of stream the bytes that did arrive are already on disk. -/
def receiveFileBody (hashHex : List Nat → List Nat) (entry : Option FileEntry)
    (filePath : List Nat) (prefixBytes : List Nat) (size offset : Int)
    (stream : List Nat) (fs : Fs) (ev : List FileEvent) : RecvOut :=
  let remaining := size - offset
  let received := stream.take remaining.toNat
  let fs2 := fsSet fs filePath (prefixBytes ++ received)
  let ev2 := ev ++ [FileEvent.openWrite filePath]
  if (received.length : Int) ≠ remaining then
    ⟨fs2, stream.drop remaining.toNat, ev2, some (strBytes "unexpected EOF")⟩
  else
    match readMessage (stream.drop remaining.toNat) with
    | .error _ => ⟨fs2, stream.drop remaining.toNat, ev2,
        some (strBytes "failed to read end message")⟩
    | .ok (m, rest) =>
        if m.type ≠ MsgFileEnd then ⟨fs2, rest, ev2, some (strBytes "expected file end message")⟩
        else
          match entry with
          | some e =>
              if e.checksum ≠ [] ∧ hashHex (prefixBytes ++ received) ≠ e.checksum then
                ⟨fs2, rest, ev2, some (strBytes "checksum mismatch")⟩
              else ⟨fs2, rest, ev2, none⟩
          | none => ⟨fs2, rest, ev2, none⟩

/-- `Receiver.receiveFile`: decode the `FileStart`, look up the manifest
entry by path (its absence is tolerated), short-circuit when
`offset == size` (only the `FileEnd` frame is read), otherwise validate
the path (`HasPrefix` against `cleanDest + separator`), create the
parent directory, hash the existing prefix when appending, open the
file (`O_APPEND`/`O_TRUNC`), truncate to the offset when longer, and
run the streaming tail. -/
def receiveFile (hashHex : List Nat → List Nat) (manifest : Manifest)
    (destFolder : List Nat) (startMsg : Message) (stream : List Nat) (fs : Fs) : RecvOut :=
  match unmarshalFileStart startMsg.payload with
  | none => ⟨fs, stream, [], some (strBytes "invalid file start")⟩
  | some fstart =>
      let entry := manifest.files.find? (fun e => decide (e.path = fstart.path))
      if fstart.offset = fstart.size then
        match readMessage stream with
        | .error _ => ⟨fs, stream, [], some (strBytes "failed to read end message")⟩
        | .ok (m, rest) =>
            if m.type = MsgFileEnd then ⟨fs, rest, [], none⟩
            else ⟨fs, rest, [], some (strBytes "expected file end message")⟩
      else
        let filePath := pathJoin destFolder fstart.path
        if ¬ goHasPrefix (pathClean filePath) (pathClean destFolder ++ [47]) then
          ⟨fs, stream, [], some (strBytes "invalid file path (Zip Slip detected)")⟩
        else
          let ev0 := [FileEvent.mkdirAll (pathDir filePath)]
          if fstart.offset > 0 then
            match fsGet fs filePath with
            | none => ⟨fs, stream, ev0 ++ [FileEvent.openRead filePath],
                some (strBytes "failed to open existing file for hashing")⟩
            | some existing =>
                if (existing.length : Int) < fstart.offset then
                  ⟨fs, stream, ev0 ++ [FileEvent.openRead filePath],
                    some (strBytes "failed to hash existing content")⟩
                else
                  receiveFileBody hashHex entry filePath (existing.take fstart.offset.toNat)
                    fstart.size fstart.offset stream fs (ev0 ++ [FileEvent.openRead filePath])
          else
            receiveFileBody hashHex entry filePath [] fstart.size fstart.offset stream fs ev0

/-- The zero-length short-circuit of `receiveFile`: when the decoded
offset equals the size, only the following frame is read; it must be a
`FileEnd`, and then the call succeeds with the filesystem untouched, no
directory created, no file opened, and no checksum comparison — whatever
the path or the entry checksum. -/
theorem receiveFile_zero_length (hashHex : List Nat → List Nat) (manifest : Manifest)
    (destFolder : List Nat) (startMsg : Message) (stream : List Nat) (fs : Fs)
    (fstart : FileStartMsg) (m : Message) (rest : List Nat)
    (hp : unmarshalFileStart startMsg.payload = some fstart)
    (heq : fstart.offset = fstart.size)
    (hread : readMessage stream = .ok (m, rest)) (hend : m.type = MsgFileEnd) :
    receiveFile hashHex manifest destFolder startMsg stream fs = ⟨fs, rest, [], none⟩ := by
  simp [receiveFile, hp, heq, hread, hend]

/-- C9: for every inbound `FileStart` whose offset equals its size,
`receiveFile` succeeds after reading only the following `FileEnd`
frame: the filesystem is unchanged, no directory is created, no file is
opened or written, the path-escape check is skipped and the whole-file
checksum is never compared — for arbitrary digests, manifests and
paths. -/
theorem receiveFile_offset_eq_size_skips_all (hashHex : List Nat → List Nat)
    (manifest : Manifest) (destFolder : List Nat) (startMsg : Message) (stream : List Nat)
    (fs : Fs) (fstart : FileStartMsg) (m : Message) (rest : List Nat)
    (hp : unmarshalFileStart startMsg.payload = some fstart)
    (heq : fstart.offset = fstart.size)
    (hread : readMessage stream = .ok (m, rest)) (hend : m.type = MsgFileEnd) :
    receiveFile hashHex manifest destFolder startMsg stream fs = ⟨fs, rest, [], none⟩ :=
  receiveFile_zero_length hashHex manifest destFolder startMsg stream fs fstart m rest
    hp heq hread hend

/-- Witness for `receiveFile_offset_eq_size_skips_all`: the `FileStart`
carries the escaping path `../evil` with offset = size = 5, the
manifest entry for it has a non-empty checksum, and the digest oracle
would never match — still the call succeeds without touching the
filesystem. -/
theorem receiveFile_offset_eq_size_skips_all_witness :
    unmarshalFileStart (Message.mk MsgFileStart
        (strBytes "\x7b\"path\":\"../evil\",\"size\":5,\"offset\":5\x7d")).payload =
        some ⟨strBytes "../evil", 5, 5⟩ ∧
      (5 : Int) = 5 ∧
      readMessage (writeMessage ⟨MsgFileEnd, []⟩) = .ok (⟨MsgFileEnd, []⟩, []) ∧
      (MsgFileEnd : Nat) = MsgFileEnd ∧
      receiveFile (fun _ => strBytes "nope")
          ⟨strBytes "root", 5, [⟨strBytes "../evil", 5, 420, strBytes "deadbeef", [], 0⟩]⟩
          (strBytes "/dst/root")
          ⟨MsgFileStart, strBytes "\x7b\"path\":\"../evil\",\"size\":5,\"offset\":5\x7d"⟩
          (writeMessage ⟨MsgFileEnd, []⟩) [(strBytes "/x", [7])] =
        ⟨[(strBytes "/x", [7])], [], [], none⟩ :=
  ⟨by decide, by decide, by decide, by decide,
    receiveFile_offset_eq_size_skips_all (fun _ => strBytes "nope")
      ⟨strBytes "root", 5, [⟨strBytes "../evil", 5, 420, strBytes "deadbeef", [], 0⟩]⟩
      (strBytes "/dst/root")
      ⟨MsgFileStart, strBytes "\x7b\"path\":\"../evil\",\"size\":5,\"offset\":5\x7d"⟩
      (writeMessage ⟨MsgFileEnd, []⟩) [(strBytes "/x", [7])]
      ⟨strBytes "../evil", 5, 5⟩ ⟨MsgFileEnd, []⟩ []
      (by decide) (by decide) (by decide) (by decide)⟩

/-- C5 (counterexample): a `FileStart` whose path has no manifest entry
is not an error: `receiveFile` receives and writes the file and returns
success, skipping checksum verification entirely (the manifest here has
no entries at all). -/
theorem receiveFile_missing_entry_not_error :
    receiveFile (fun _ => strBytes "nope") ⟨strBytes "root", 0, []⟩ (strBytes "/dst/root")
        ⟨MsgFileStart, strBytes "\x7b\"path\":\"a.txt\",\"size\":3\x7d"⟩
        ([1, 2, 3] ++ writeMessage ⟨MsgFileEnd, []⟩) [] =
      ⟨[(strBytes "/dst/root/a.txt", [1, 2, 3])], [],
        [FileEvent.mkdirAll (strBytes "/dst/root"),
         FileEvent.openWrite (strBytes "/dst/root/a.txt")], none⟩ := by
  decide

/-- C5 (amended): the manifest entry lookup tolerates absence — with no
matching entry the file is accepted without checksum verification; when
the matching entry exists and carries a non-empty checksum, the
finalised digest of the existing prefix plus the received bytes is
compared against it and a mismatch is the fatal error, a match is
success. (Stated for the resumed case `0 < offset < size` with a
well-framed stream.) -/
theorem receiveFile_checksum_semantics (hashHex : List Nat → List Nat)
    (manifest : Manifest) (destFolder : List Nat) (startMsg : Message)
    (fs : Fs) (fstart : FileStartMsg) (existing payload more : List Nat)
    (hp : unmarshalFileStart startMsg.payload = some fstart)
    (hne : fstart.offset ≠ fstart.size)
    (hsafe : goHasPrefix (pathClean (pathJoin destFolder fstart.path))
      (pathClean destFolder ++ [47]) = true)
    (hoffpos : 0 < fstart.offset)
    (hex : fsGet fs (pathJoin destFolder fstart.path) = some existing)
    (hlen : fstart.offset ≤ (existing.length : Int))
    (hpay : (payload.length : Int) = fstart.size - fstart.offset) :
    (manifest.files.find? (fun e => decide (e.path = fstart.path)) = none →
        (receiveFile hashHex manifest destFolder startMsg
          (payload ++ writeMessage ⟨MsgFileEnd, []⟩ ++ more) fs).err = none) ∧
      (∀ e, manifest.files.find? (fun e => decide (e.path = fstart.path)) = some e →
        e.checksum ≠ [] →
        (receiveFile hashHex manifest destFolder startMsg
            (payload ++ writeMessage ⟨MsgFileEnd, []⟩ ++ more) fs).err =
          (if hashHex (existing.take fstart.offset.toNat ++ payload) = e.checksum then none
           else some (strBytes "checksum mismatch"))) := by
  have hrem : (fstart.size - fstart.offset).toNat = payload.length := by omega
  have htake : (payload ++ (writeMessage ⟨MsgFileEnd, []⟩ ++ more)).take
      (fstart.size - fstart.offset).toNat = payload := by
    rw [hrem]
    exact List.take_left _ _
  have hdrop : (payload ++ (writeMessage ⟨MsgFileEnd, []⟩ ++ more)).drop
      (fstart.size - fstart.offset).toNat = writeMessage ⟨MsgFileEnd, []⟩ ++ more := by
    rw [hrem]
    exact List.drop_left _ _
  have hread : readMessage (writeMessage ⟨MsgFileEnd, []⟩ ++ more) =
      .ok (⟨MsgFileEnd, []⟩, more) :=
    readMessage_writeMessage_ok ⟨MsgFileEnd, []⟩ more (by decide) (by decide)
  have hcond : ¬ ((payload.length : Int) ≠ fstart.size - fstart.offset) := by omega
  constructor
  · intro hnone
    simp only [receiveFile, hp, hne, if_false, hsafe, hoffpos, if_pos, hex,
      not_lt.2 hlen, hnone, receiveFileBody]
    simp only [List.append_assoc] at htake hdrop ⊢
    rw [htake, hdrop, hread, if_neg hcond]
    simp [MsgFileEnd, hnone]
  · intro e hfind hck
    simp only [receiveFile, hp, hne, if_false, hsafe, hoffpos, if_pos, hex,
      not_lt.2 hlen, hfind, receiveFileBody]
    simp only [List.append_assoc] at htake hdrop ⊢
    rw [htake, hdrop, hread, if_neg hcond]
    by_cases hh : hashHex (existing.take fstart.offset.toNat ++ payload) = e.checksum
    · simp [MsgFileEnd, hfind, hck, hh]
    · simp [MsgFileEnd, hfind, hck, hh]

/-- Witness for `receiveFile_checksum_semantics`: resuming `a.txt` at
offset 2 of 5 with the identity digest oracle; the entry checksum
equals the digest of prefix plus received bytes, so the receive
succeeds. -/
theorem receiveFile_checksum_semantics_witness :
    (0 : Int) < 2 ∧
      (receiveFile (fun l => l)
          ⟨strBytes "root", 5, [⟨strBytes "a.txt", 5, 420, [5, 6, 9, 9, 9], [], 0⟩]⟩
          (strBytes "/dst/root")
          ⟨MsgFileStart, strBytes "\x7b\"path\":\"a.txt\",\"size\":5,\"offset\":2\x7d"⟩
          ([9, 9, 9] ++ writeMessage ⟨MsgFileEnd, []⟩ ++ [])
          [(strBytes "/dst/root/a.txt", [5, 6, 7, 8])]).err = none := by
  refine ⟨by decide, ?_⟩
  have h := (receiveFile_checksum_semantics (fun l => l)
      ⟨strBytes "root", 5, [⟨strBytes "a.txt", 5, 420, [5, 6, 9, 9, 9], [], 0⟩]⟩
      (strBytes "/dst/root")
      ⟨MsgFileStart, strBytes "\x7b\"path\":\"a.txt\",\"size\":5,\"offset\":2\x7d"⟩
      [(strBytes "/dst/root/a.txt", [5, 6, 7, 8])]
      ⟨strBytes "a.txt", 5, 2⟩ [5, 6, 7, 8] [9, 9, 9] []
      (by decide) (by decide) (by decide) (by decide) (by decide) (by decide) (by decide)).2
    ⟨strBytes "a.txt", 5, 420, [5, 6, 9, 9, 9], [], 0⟩ (by decide) (by decide)
  rw [h]
  decide

/-! ## `Sender.Send` / `Sender.sendFile` -/

/-- What the Sender writes to the stream: framed control messages and
raw file bytes, in order. -/
inductive Chunk where
  | fileStart (path : List Nat) (size offset : Int)
  | fileEnd
  | complete
  | raw (bs : List Nat)
deriving DecidableEq, Repr

/-- Go map lookup on the decoded resume offsets (duplicate JSON keys
decode last-wins); a missing key is 0. -/
def resumeLookup (resume : List (List Nat × Int)) (p : List Nat) : Int :=
  (resume.foldl (fun acc kv => if kv.1 = p then some kv.2 else acc) none).getD 0

/-- `Sender.sendFile`: write `FileStart`, short-circuit to `FileEnd`
when `offset == size`, otherwise open the file (the root itself for a
single-file transfer), seek when `offset > 0`, stream the remaining
bytes in chunks and require exactly `size - offset` of them, then write
`FileEnd`. Returns the chunks written and the error, if any. -/
def sendFile (rootIsFile : Bool) (rootPath : List Nat) (fs : Fs) (entry : FileEntry)
    (offset : Int) : List Chunk × Option (List Nat) :=
  let start := Chunk.fileStart entry.path entry.size offset
  if offset = entry.size then ([start, Chunk.fileEnd], none)
  else
    let filePath := if rootIsFile then rootPath else pathJoin rootPath entry.path
    match fsGet fs filePath with
    | none => ([start], some (strBytes "open failed"))
    | some content =>
        let startPos := if offset > 0 then offset.toNat else 0
        let sent := (content.drop startPos).take (entry.size - offset).toNat
        if (sent.length : Int) ≠ entry.size - offset then
          ([start, Chunk.raw sent], some (strBytes "incomplete transfer"))
        else ([start, Chunk.raw sent, Chunk.fileEnd], none)

/-- The per-file loop of `Sender.Send`: look the path up in the resume
map, clamp the offset from above (`if offset >= size, offset = size`),
and send; the first error stops the loop. -/
def sendFiles (rootIsFile : Bool) (rootPath : List Nat) (fs : Fs)
    (resume : List (List Nat × Int)) : List FileEntry → List Chunk × Option (List Nat)
  | [] => ([], none)
  | f :: rest =>
      let offset0 := resumeLookup resume f.path
      let offset := if offset0 ≥ f.size then f.size else offset0
      match sendFile rootIsFile rootPath fs f offset with
      | (cs, some e) => (cs, some e)
      | (cs, none) =>
          let next := sendFiles rootIsFile rootPath fs resume rest
          (cs ++ next.1, next.2)

/-- `Sender.Send` after the resume message is decoded: the per-file
loop followed by `Complete`. -/
def sendTransfer (rootIsFile : Bool) (rootPath : List Nat) (fs : Fs) (manifest : Manifest)
    (resume : List (List Nat × Int)) : List Chunk × Option (List Nat) :=
  match sendFiles rootIsFile rootPath fs resume manifest.files with
  | (cs, some e) => (cs, some e)
  | (cs, none) => (cs ++ [Chunk.complete], none)

/-- The per-file trace the specification prescribes: `FileStart` with
the advertised offset clamped to the entry size, the raw bytes from
that offset to the end, and `FileEnd`; nothing between `FileStart` and
`FileEnd` when the offset equals the size. -/
def sendFileSpecTrace (fs : Fs) (rootPath : List Nat) (resume : List (List Nat × Int))
    (f : FileEntry) : List Chunk :=
  let o := min (resumeLookup resume f.path) f.size
  if o = f.size then [Chunk.fileStart f.path f.size o, Chunk.fileEnd]
  else
    [Chunk.fileStart f.path f.size o,
     Chunk.raw (((fsGet fs (pathJoin rootPath f.path)).getD []).drop o.toNat),
     Chunk.fileEnd]

theorem resumeLookup_nonneg (resume : List (List Nat × Int)) (p : List Nat)
    (h : ∀ kv ∈ resume, 0 ≤ kv.2) : 0 ≤ resumeLookup resume p := by
  unfold resumeLookup
  suffices hs : ∀ acc : Option Int, (acc = none ∨ ∃ v, acc = some v ∧ 0 ≤ v) →
      0 ≤ (resume.foldl (fun acc kv => if kv.1 = p then some kv.2 else acc) acc).getD 0 by
    exact hs none (Or.inl rfl)
  induction resume with
  | nil =>
      rintro acc (rfl | ⟨v, rfl, hv⟩)
      · simp
      · simpa
  | cons kv rest ih =>
      rintro acc hacc
      have hkv : 0 ≤ kv.2 := h kv (by simp)
      have hrest : ∀ x ∈ rest, 0 ≤ x.2 := fun x hx => h x (by simp [hx])
      simp only [List.foldl_cons]
      by_cases hk : kv.1 = p
      · refine ih hrest _ (Or.inr ⟨kv.2, ?_, hkv⟩)
        simp [hk]
      · refine ih hrest _ ?_
        simpa [hk] using hacc

theorem sendFile_spec (rootPath : List Nat) (fs : Fs) (f : FileEntry)
    (resume : List (List Nat × Int)) (content : List Nat)
    (hoff : 0 ≤ resumeLookup resume f.path)
    (hget : fsGet fs (pathJoin rootPath f.path) = some content)
    (hlen : (content.length : Int) = f.size) :
    sendFile false rootPath fs f
        (if resumeLookup resume f.path ≥ f.size then f.size else resumeLookup resume f.path) =
      (sendFileSpecTrace fs rootPath resume f, none) := by
  by_cases hge : resumeLookup resume f.path ≥ f.size
  · have hmin : min (resumeLookup resume f.path) f.size = f.size := by omega
    simp [sendFile, sendFileSpecTrace, hge, hmin]
  · have hmin : min (resumeLookup resume f.path) f.size = resumeLookup resume f.path := by
      omega
    have hne : resumeLookup resume f.path ≠ f.size := by omega
    simp only [sendFile, sendFileSpecTrace, hge, if_false, hmin, if_neg hne, hget,
      Option.getD_some]
    have hpos : (if resumeLookup resume f.path > 0 then (resumeLookup resume f.path).toNat
        else 0) = (resumeLookup resume f.path).toNat := by
      by_cases h : resumeLookup resume f.path > 0
      · simp [h]
      · simp [h]
        omega
    rw [hpos]
    have hdlen : ((content.drop (resumeLookup resume f.path).toNat).length : Int) =
        f.size - resumeLookup resume f.path := by
      rw [List.length_drop]
      omega
    have htake : (content.drop (resumeLookup resume f.path).toNat).take
        (f.size - resumeLookup resume f.path).toNat =
        content.drop (resumeLookup resume f.path).toNat := by
      apply List.take_of_length_le
      omega
    simp only [Bool.false_eq_true, if_false, hget]
    rw [htake]
    rw [if_neg (by omega)]

theorem sendFiles_spec (rootPath : List Nat) (fs : Fs) (resume : List (List Nat × Int))
    (files : List FileEntry)
    (hoffs : ∀ kv ∈ resume, 0 ≤ kv.2)
    (hfiles : ∀ f ∈ files, ∃ content,
      fsGet fs (pathJoin rootPath f.path) = some content ∧ (content.length : Int) = f.size) :
    sendFiles false rootPath fs resume files =
      ((files.map (sendFileSpecTrace fs rootPath resume)).flatten, none) := by
  induction files with
  | nil => simp [sendFiles]
  | cons f rest ih =>
      obtain ⟨content, hget, hlen⟩ := hfiles f (by simp)
      have hone := sendFile_spec rootPath fs f resume content
        (resumeLookup_nonneg resume f.path hoffs) hget hlen
      simp only [sendFiles, hone, ih (fun x hx => hfiles x (by simp [hx]))]
      simp

/-- C3 (amended): for every received resume map whose offsets are
non-negative (as the Receiver's verification always produces), the
Sender emits, for each file in manifest order, `FileStart` with the
advertised offset clamped from above to the file size, then exactly the
`size - offset` raw bytes from that offset, then `FileEnd`, ending with
`Complete`; when the clamped offset equals the size the `FileStart` is
followed immediately by `FileEnd` with no raw bytes; and the Receiver
accepts this zero-length case by reading only the `FileEnd` frame.
(Negative advertised offsets are not clamped from below — see the
counterexample.) -/
theorem sendTransfer_streams_per_spec (rootPath : List Nat) (fs : Fs) (manifest : Manifest)
    (resume : List (List Nat × Int))
    (hoffs : ∀ kv ∈ resume, 0 ≤ kv.2)
    (hfiles : ∀ f ∈ manifest.files, ∃ content,
      fsGet fs (pathJoin rootPath f.path) = some content ∧ (content.length : Int) = f.size) :
    sendTransfer false rootPath fs manifest resume =
        ((manifest.files.map (sendFileSpecTrace fs rootPath resume)).flatten ++ [Chunk.complete],
          none) ∧
      (∀ f ∈ manifest.files, min (resumeLookup resume f.path) f.size = f.size →
        sendFileSpecTrace fs rootPath resume f =
          [Chunk.fileStart f.path f.size f.size, Chunk.fileEnd]) ∧
      (∀ hashHex man2 destF startMsg stream fs2 fstart m rest,
        unmarshalFileStart (Message.payload startMsg) = some fstart →
        FileStartMsg.offset fstart = FileStartMsg.size fstart →
        readMessage stream = .ok (m, rest) → Message.type m = MsgFileEnd →
        receiveFile hashHex man2 destF startMsg stream fs2 = ⟨fs2, rest, [], none⟩) := by
  refine ⟨?_, ?_, ?_⟩
  · simp [sendTransfer, sendFiles_spec rootPath fs resume manifest.files hoffs hfiles]
  · intro f hf hmin
    simp [sendFileSpecTrace, hmin]
  · intro hashHex man2 destF startMsg stream fs2 fstart m rest hp heq hread hend
    exact receiveFile_zero_length hashHex man2 destF startMsg stream fs2 fstart m rest
      hp heq hread hend

/-- C3 (counterexample): a receiver-advertised offset of −1 is not
clamped to `[0, size]`: the Sender writes `FileStart` with offset −1
(and the transfer then fails with an incomplete-transfer error after
streaming the whole file), where the claim requires the clamped offset
0. -/
theorem sendTransfer_negative_offset_unclamped :
    (sendTransfer false (strBytes "/src") [(strBytes "/src/a", [10, 20])]
        ⟨strBytes "src", 2, [⟨strBytes "a", 2, 420, [], [], 0⟩]⟩
        [(strBytes "a", -1)]).1.head? =
      some (Chunk.fileStart (strBytes "a") 2 (-1)) ∧
      ¬ ((0 : Int) ≤ -1) ∧
      (sendTransfer false (strBytes "/src") [(strBytes "/src/a", [10, 20])]
        ⟨strBytes "src", 2, [⟨strBytes "a", 2, 420, [], [], 0⟩]⟩
        [(strBytes "a", -1)]).2 = some (strBytes "incomplete transfer") :=
  ⟨by decide, by decide, by decide⟩

/-- Witness for `sendTransfer_streams_per_spec`: two files, one already
complete on the receiver (offset = size, zero-length case) and one
resumed at offset 1. -/
theorem sendTransfer_streams_per_spec_witness :
    (∀ kv ∈ [(strBytes "a", (2 : Int)), (strBytes "b", 1)], 0 ≤ kv.2) ∧
      (sendTransfer false (strBytes "/src")
          [(strBytes "/src/a", [10, 20]), (strBytes "/src/b", [30, 40])]
          ⟨strBytes "src", 4, [⟨strBytes "a", 2, 420, [], [], 0⟩,
            ⟨strBytes "b", 2, 420, [], [], 0⟩]⟩
          [(strBytes "a", 2), (strBytes "b", 1)]).1 =
        [Chunk.fileStart (strBytes "a") 2 2, Chunk.fileEnd,
         Chunk.fileStart (strBytes "b") 2 1, Chunk.raw [40], Chunk.fileEnd,
         Chunk.complete] := by
  refine ⟨by decide, ?_⟩
  have h := (sendTransfer_streams_per_spec (strBytes "/src")
      [(strBytes "/src/a", [10, 20]), (strBytes "/src/b", [30, 40])]
      ⟨strBytes "src", 4, [⟨strBytes "a", 2, 420, [], [], 0⟩, ⟨strBytes "b", 2, 420, [], [], 0⟩]⟩
      [(strBytes "a", 2), (strBytes "b", 1)]
      (by decide)
      (by
        intro f hf
        simp only [List.mem_cons, List.mem_singleton] at hf
        rcases hf with rfl | rfl | h
        · exact ⟨[10, 20], by decide, by decide⟩
        · exact ⟨[30, 40], by decide, by decide⟩
        · cases h)).1
  rw [h]
  decide

/-! ## `BuildManifest` cache behaviour -/

/-- The manifest cache file name `BuildManifest` actually uses:
`.2c1f_manifest.json` (the specification calls it `.manifest-cache`). -/
def manifestCacheName : List Nat := strBytes ".2c1f_manifest.json"

/-- The cache flow of `BuildManifest`. `decode`/`encode` model
`json.Unmarshal`/`json.MarshalIndent` of a `Manifest` and `built` the
walk-and-hash phase (`none` = error), all external to the claim under
study. Returns the produced manifest and the file writes performed,
each as (path, content, mode). -/
def buildManifestCacheFlow (decode : List Nat → Option Manifest)
    (encode : Manifest → List Nat) (isDir cache skipHash : Bool) (fs : Fs)
    (root : List Nat) (built : Option Manifest) :
    Option Manifest × List (List Nat × List Nat × Nat) :=
  let cacheFile := pathJoin root manifestCacheName
  let fresh : Option Manifest × List (List Nat × List Nat × Nat) :=
    match built with
    | none => (none, [])
    | some m =>
        if cache && isDir && !skipHash then (some m, [(cacheFile, encode m, 384)])
        else (some m, [])
  if cache && isDir && !skipHash then
    match fsGet fs cacheFile with
    | some data =>
        match decode data with
        | some m => (some m, [])
        | none => fresh
    | none => fresh
  else fresh

/-- C8 (counterexample): with a well-formed manifest sitting at
`<root>/.manifest-cache` (the claim's cache path) and nothing at
`<root>/.2c1f_manifest.json`, `BuildManifest` ignores the former,
rebuilds, and writes the cache to the latter: the cache file is
`.2c1f_manifest.json`, not `.manifest-cache`. -/
theorem buildManifest_cache_wrong_filename :
    buildManifestCacheFlow
        (fun d => if d = strBytes "CACHED" then some ⟨strBytes "c", 1, []⟩ else none)
        (fun _ => strBytes "ENC") true true false
        [(strBytes "/r/.manifest-cache", strBytes "CACHED")]
        (strBytes "/r") (some ⟨strBytes "f", 2, []⟩) =
      (some ⟨strBytes "f", 2, []⟩,
        [(strBytes "/r/.2c1f_manifest.json", strBytes "ENC", 384)]) ∧
      (some (Manifest.mk (strBytes "f") 2 []) ≠ some (Manifest.mk (strBytes "c") 1 [])) ∧
      fsGet [(strBytes "/r/.manifest-cache", strBytes "CACHED")]
        (strBytes "/r/.manifest-cache") = some (strBytes "CACHED") ∧
      (if strBytes "CACHED" = strBytes "CACHED" then some (Manifest.mk (strBytes "c") 1 [])
        else none) = some (Manifest.mk (strBytes "c") 1 []) ∧
      pathJoin (strBytes "/r") manifestCacheName ≠ strBytes "/r/.manifest-cache" :=
  ⟨by decide, by decide, by decide, by decide, by decide⟩

/-- C8 (amended): when the root is a directory with caching enabled and
hashing not skipped, `BuildManifest` first attempts to load
`<root>/.2c1f_manifest.json` and returns it as-is if well-formed (no
write); otherwise, on successful construction, it writes the manifest
as JSON to that same file with mode `0600`. -/
theorem buildManifest_cache_spec (decode : List Nat → Option Manifest)
    (encode : Manifest → List Nat) (fs : Fs) (root : List Nat) (built : Option Manifest) :
    (∀ data m, fsGet fs (pathJoin root manifestCacheName) = some data →
        decode data = some m →
        buildManifestCacheFlow decode encode true true false fs root built = (some m, [])) ∧
      (∀ m, fsGet fs (pathJoin root manifestCacheName) = none → built = some m →
        buildManifestCacheFlow decode encode true true false fs root built =
          (some m, [(pathJoin root manifestCacheName, encode m, 384)])) := by
  constructor
  · intro data m hget hdec
    simp [buildManifestCacheFlow, hget, hdec]
  · intro m hget hbuilt
    simp [buildManifestCacheFlow, hget, hbuilt]

/-- Witness for `buildManifest_cache_spec`: a present, decodable cache
is returned verbatim with no write. -/
theorem buildManifest_cache_spec_witness :
    fsGet [(strBytes "/r/.2c1f_manifest.json", strBytes "CM")]
        (pathJoin (strBytes "/r") manifestCacheName) = some (strBytes "CM") ∧
      (fun d => if d = strBytes "CM" then some (Manifest.mk (strBytes "c") 1 []) else none)
          (strBytes "CM") = some (Manifest.mk (strBytes "c") 1 []) ∧
      buildManifestCacheFlow
          (fun d => if d = strBytes "CM" then some (Manifest.mk (strBytes "c") 1 []) else none)
          (fun _ => strBytes "ENC") true true false
          [(strBytes "/r/.2c1f_manifest.json", strBytes "CM")]
          (strBytes "/r") (some ⟨strBytes "f", 2, []⟩) =
        (some (Manifest.mk (strBytes "c") 1 []), []) :=
  ⟨by decide, by decide,
    (buildManifest_cache_spec
      (fun d => if d = strBytes "CM" then some (Manifest.mk (strBytes "c") 1 []) else none)
      (fun _ => strBytes "ENC")
      [(strBytes "/r/.2c1f_manifest.json", strBytes "CM")]
      (strBytes "/r") (some ⟨strBytes "f", 2, []⟩)).1
      (strBytes "CM") (Manifest.mk (strBytes "c") 1 []) (by decide) (by decide)⟩

/-! ## Handshake -/

/-- The handshake message the Receiver sends (Receive line 34): the raw
code bytes as payload, `Message(MsgHandshake, []byte(r.Code))`. -/
def receiverHandshakeMessage (code : List Nat) : Message := ⟨MsgHandshake, code⟩

/-- What `json.Marshal` of `HandshakeMsg` would produce for a code
without escape-needing characters: the object form the claim contrasts
the raw payload with. -/
def marshalHandshakeMsg (code : List Nat) : List Nat :=
  strBytes "\x7b\"code\":\"" ++ code ++ strBytes "\"\x7d"

/-- `json.Unmarshal` of a payload into `HandshakeMsg` (one string field
tagged `code`): invalid JSON or a non-object non-null document errors;
`null`, and a missing or null `code` field, leave the zero value `""`. -/
def unmarshalHandshake (data : List Nat) : Option (List Nat) :=
  match parseJson data with
  | some (JValue.obj fields) => jStrField fields (strBytes "code")
  | some JValue.null => some []
  | _ => none

/-- Outcome of `Sender.Handshake` on a received handshake payload. -/
inductive HsOutcome where
  | acceptJson : HsOutcome
  | acceptFallback : HsOutcome
  | reject : HsOutcome
deriving DecidableEq

/-- `Sender.Handshake` (lines 412-425) on the received payload: if JSON
decoding fails, reject unless the raw payload bytes equal the sender
code (fallback accept); if it succeeds, reject unless the decoded code
matches (JSON accept). -/
def senderHandshake (senderCode payload : List Nat) : HsOutcome :=
  match unmarshalHandshake payload with
  | none => if payload = senderCode then HsOutcome.acceptFallback else HsOutcome.reject
  | some c => if c = senderCode then HsOutcome.acceptJson else HsOutcome.reject

theorem parseNumber_digit3_hyphen (d1 d2 d3 : Nat) (rest : List Nat)
    (h1 : isDigitB d1 = true) (h2 : isDigitB d2 = true) (h3 : isDigitB d3 = true)
    (h48 : d1 ≠ 48) :
    parseNumber (d1 :: d2 :: d3 :: 45 :: rest) =
      some (((digitsVal (d1 - 48) [d2, d3] : Int), true), 45 :: rest) := by
  have hd48 : 48 ≤ d1 ∧ d1 ≤ 57 := by simpa [isDigitB, decide_eq_true_eq] using h1
  have hne45 : (d1 = 45) = False := by
    simp
    omega
  have hlz : (d1 = 48 && headIsDigitB (d2 :: d3 :: 45 :: rest)) = false := by
    simp [h48]
  have hdigits : parseDigits (d2 :: d3 :: 45 :: rest) (d1 - 48) =
      (digitsVal (d1 - 48) [d2, d3], 45 :: rest) := by
    have happ := parseDigits_append [d2, d3] (45 :: rest) (d1 - 48)
      (by
        intro c hc
        simp at hc
        rcases hc with h | h
        · exact h ▸ h2
        · exact h ▸ h3)
      (by simp [headNotDigit, isDigitB])
    simpa using happ
  have hfrac : parseFracPart (45 :: rest) = some (false, 45 :: rest) := by
    norm_num [parseFracPart]
  have hexp : parseExpPart (45 :: rest) = some (false, 45 :: rest) := by
    norm_num [parseExpPart]
  simp only [parseNumber, hne45, if_false, parseNumberCore, h1, not_true, if_neg, hlz,
    Bool.false_eq_true, hdigits, hfrac, hexp]
  simp

theorem parseValue_digit3_hyphen (f : Nat) (hf : f ≠ 0) (d1 d2 d3 : Nat) (rest : List Nat)
    (h1 : isDigitB d1 = true) (h2 : isDigitB d2 = true) (h3 : isDigitB d3 = true)
    (h48 : d1 ≠ 48) :
    parseValue f (d1 :: d2 :: d3 :: 45 :: rest) =
      some (JValue.num (digitsVal (d1 - 48) [d2, d3]) true, 45 :: rest) := by
  obtain ⟨f, rfl⟩ : ∃ g, f = g + 1 := ⟨f - 1, by omega⟩
  rw [parseValue, skipWs_cons _ _ (isWsB_of_digit d1 h1)]
  simp only [h1, true_or, if_pos, parseNumber_digit3_hyphen d1 d2 d3 rest h1 h2 h3 h48]
  rfl

theorem parseValue_digit3_hyphen_lz (f : Nat) (d2 d3 : Nat) (rest : List Nat)
    (h2 : isDigitB d2 = true) :
    parseValue f (48 :: d2 :: d3 :: 45 :: rest) = none := by
  cases f with
  | zero => rfl
  | succ g =>
      rw [parseValue, skipWs_cons _ _ (by decide)]
      have hh : headIsDigitB (d2 :: d3 :: 45 :: rest) = true := by
        simp [headIsDigitB, h2]
      norm_num [parseNumber, parseNumberCore, hh, isDigitB]

/-- A document of shape digit-digit-digit-hyphen-anything is not valid
JSON: either the leading-zero rule bites, or a number parses and the
hyphen is trailing garbage. -/
theorem parseJson_digit_hyphen (d1 d2 d3 : Nat) (rest : List Nat)
    (h1 : isDigitB d1 = true) (h2 : isDigitB d2 = true) (h3 : isDigitB d3 = true) :
    parseJson (d1 :: d2 :: d3 :: 45 :: rest) = none := by
  unfold parseJson
  by_cases h48 : d1 = 48
  · subst h48
    rw [parseValue_digit3_hyphen_lz _ d2 d3 rest h2]
  · rw [parseValue_digit3_hyphen _ (by omega) d1 d2 d3 rest h1 h2 h3 h48]
    have h45 : skipWs (45 :: rest) = 45 :: rest := skipWs_cons _ _ (by decide)
    simp [h45]

theorem unmarshalHandshake_digit_hyphen (d1 d2 d3 : Nat) (rest : List Nat)
    (h1 : isDigitB d1 = true) (h2 : isDigitB d2 = true) (h3 : isDigitB d3 = true) :
    unmarshalHandshake (d1 :: d2 :: d3 :: 45 :: rest) = none := by
  unfold unmarshalHandshake
  rw [parseJson_digit_hyphen d1 d2 d3 rest h1 h2 h3]

/-- C10 (counterexample): the claim quantifies over every code string,
but it fails at the code "null": json.Unmarshal succeeds on the raw
payload (decoding JSON null into the struct as a no-op, leaving the
code field at its zero value ""), so the matching Sender takes the JSON
branch, compares "" with "null", and rejects its own Receiver instead
of accepting through the fallback. -/
theorem senderHandshake_null_code_rejected :
    (receiverHandshakeMessage (strBytes "null")).payload = strBytes "null" ∧
      unmarshalHandshake (strBytes "null") = some [] ∧
      senderHandshake (strBytes "null") (strBytes "null") = HsOutcome.reject :=
  ⟨rfl, by decide, by decide⟩

/-- C10 (amended): for every code starting with three decimal digits and
a hyphen — in particular every code of the documented ddd-ddd or
ddd-ddd-ddd shape — the Receiver's handshake payload is the raw code
bytes, not the JSON object encoding; JSON decoding of that payload
fails; and the matching Sender accepts exactly through the fallback
raw-byte comparison. -/
theorem handshake_raw_code_fallback (d1 d2 d3 : Nat) (tail : List Nat)
    (h1 : isDigitB d1 = true) (h2 : isDigitB d2 = true) (h3 : isDigitB d3 = true) :
    (receiverHandshakeMessage (d1 :: d2 :: d3 :: 45 :: tail)).payload =
        d1 :: d2 :: d3 :: 45 :: tail ∧
      receiverHandshakeMessage (d1 :: d2 :: d3 :: 45 :: tail) ≠
        ⟨MsgHandshake, marshalHandshakeMsg (d1 :: d2 :: d3 :: 45 :: tail)⟩ ∧
      unmarshalHandshake (d1 :: d2 :: d3 :: 45 :: tail) = none ∧
      senderHandshake (d1 :: d2 :: d3 :: 45 :: tail) (d1 :: d2 :: d3 :: 45 :: tail) =
        HsOutcome.acceptFallback := by
  refine ⟨rfl, ?_, unmarshalHandshake_digit_hyphen d1 d2 d3 tail h1 h2 h3, ?_⟩
  · intro h
    have hp := congrArg Message.payload h
    simp only [receiverHandshakeMessage] at hp
    have hl := congrArg List.length hp
    have h9 : (strBytes "\x7b\"code\":\"").length = 9 := by decide
    have hq : (strBytes "\"\x7d").length = 2 := by decide
    simp only [marshalHandshakeMsg, List.length_append, List.length_cons, h9, hq] at hl
    omega
  · unfold senderHandshake
    rw [unmarshalHandshake_digit_hyphen d1 d2 d3 tail h1 h2 h3]
    simp

/-- Witness for `handshake_raw_code_fallback` at the code "123-456". -/
theorem handshake_raw_code_fallback_witness :
    (isDigitB 49 = true ∧ isDigitB 50 = true ∧ isDigitB 51 = true) ∧
      ((receiverHandshakeMessage (strBytes "123-456")).payload = strBytes "123-456" ∧
        receiverHandshakeMessage (strBytes "123-456") ≠
          ⟨MsgHandshake, marshalHandshakeMsg (strBytes "123-456")⟩ ∧
        unmarshalHandshake (strBytes "123-456") = none ∧
        senderHandshake (strBytes "123-456") (strBytes "123-456") =
          HsOutcome.acceptFallback) :=
  ⟨⟨by decide, by decide, by decide⟩,
    handshake_raw_code_fallback 49 50 51 [52, 53, 54] (by decide) (by decide) (by decide)⟩

end Transfer
